import Mathlib

/-!
Verification development for the Pico decoder-only transformer
(`src/model/pico.py` of pico-lm/pico-train).

Shallow embedding conventions:
* Floating-point tensors are modelled over `ℝ` (the spec's "within floating
  tolerance" becomes exact equality of the idealized real computation).
* A tensor axis is modelled as a total function out of `ℕ` together with an
  explicit length; positions/channels beyond the length are junk that the
  theorems never depend on.
* The batch axis is elided: every operation of the forward pass (linear maps,
  RMSNorm, rotary embedding, scaled-dot-product attention, sequence-axis
  concatenation) acts on each batch element independently, so one batch
  element is modelled.
* Fallible steps (Python exceptions: failed `assert`, bad `reshape`,
  out-of-range embedding lookup, `None` attribute access, shape mismatches in
  `scaled_dot_product_attention`) are modelled with `Option`; a run that would
  raise returns `none`.
* The additive attention-mask entries are only ever `0.0` or `float("-inf")`
  in this program; they are modelled by `MaskVal` (`val r` for a finite entry,
  `negInf` for `-inf`), and softmax gives weight `0` to `negInf` entries,
  which is the exact real semantics of `exp(-∞)`.
-/

namespace PicoModel

open Finset

/-- Modelled from the spec: the `ModelConfig` dataclass lives in `src/config`
(imported by `pico.py` as `from src.config import ModelConfig`) and is not
included under `src/`; its fields are taken from spec §3 ("Config: `d_model`,
`n_layers`, `attention_n_heads`, `attention_n_kv_heads`, `max_seq_len`,
`vocab_size`, `norm_eps`, `position_emb_theta`, `activation_hidden_dim`,
`batch_size`"). -/
structure ModelConfig where
  d_model : ℕ
  n_layers : ℕ
  attention_n_heads : ℕ
  attention_n_kv_heads : ℕ
  max_seq_len : ℕ
  vocab_size : ℕ
  norm_eps : ℝ
  position_emb_theta : ℝ
  activation_hidden_dim : ℕ
  batch_size : ℕ

/-- Derived head dimension, `pico.py:249`: `self.head_dim = d_model // self.n_heads`. -/
def headDim (cfg : ModelConfig) : ℕ := cfg.d_model / cfg.attention_n_heads

/-- Derived query-group size, `pico.py:251`: `self.n_rep = self.n_heads // self.n_kv_heads`. -/
def nRepF (cfg : ModelConfig) : ℕ := cfg.attention_n_heads / cfg.attention_n_kv_heads

/-- A bias-free `nn.Linear(inDim, outDim)`: output channel `o` is the dot
product of row `o` of the weight with the input over channels `< inDim`. -/
noncomputable def linear (w : ℕ → ℕ → ℝ) (inDim : ℕ) (x : ℕ → ℝ) : ℕ → ℝ :=
  fun o => ∑ c in Finset.range inDim, w o c * x c

/-! ## RMSNorm (`pico.py:55-86`) -/

/-- `RMSNorm._norm` (`pico.py:75-79`):
`x * torch.rsqrt(x.pow(2).mean(-1, keepdim=True) + self.eps)`, with the mean
taken over the last axis of extent `d`.  `torch.rsqrt` is `1/sqrt`.  The
`float()` widening and `type_as` cast of `forward` are identities over `ℝ`. -/
noncomputable def rmsnorm_norm (eps : ℝ) (d : ℕ) (x : ℕ → ℝ) : ℕ → ℝ :=
  fun c => x c * (Real.sqrt ((∑ i in Finset.range d, x i ^ 2) / (d : ℝ) + eps))⁻¹

/-- `RMSNorm.forward` (`pico.py:81-86`): `self._norm(x.float()).type_as(x) * self.weight`. -/
noncomputable def rmsnorm_forward (eps : ℝ) (d : ℕ) (weight x : ℕ → ℝ) : ℕ → ℝ :=
  fun c => rmsnorm_norm eps d x c * weight c

/-- The initial value of the `RMSNorm.weight` parameter, `pico.py:73`:
`nn.Parameter(torch.ones(config.d_model))`. -/
def onesWeight : ℕ → ℝ := fun _ => 1

/-! ## RoPE (`pico.py:96-201`) -/

/-- `torch.polar(r, a) = r * (cos a + i * sin a)`. -/
noncomputable def polarC (r a : ℝ) : ℂ := ⟨r * Real.cos a, r * Real.sin a⟩

/-- `RoPE._setup_freqs_cis` (`pico.py:136-149`) as a function of position `p`
and channel-pair index `i`: the frequency for pair `i` is
`1 / theta ^ (2*i/dim)` and the table entry is `polar(1, p * freq)`. -/
noncomputable def setup_freqs_cis (theta : ℝ) (dim : ℕ) (p i : ℕ) : ℂ :=
  polarC 1 ((p : ℝ) * (theta ^ (((2 * i : ℕ) : ℝ) / (dim : ℝ)))⁻¹)

/-- Length of the Python slice `t[s:e]` of a length-`len` tensor
(non-negative `s ≤ e`); Python slicing clamps instead of raising. -/
def sliceLen (len s e : ℕ) : ℕ := min e len - min s len

/-- Rotation of a `(seqLen, nHeads, headDim)` tensor by the rotary table
(`pico.py:180-200`): adjacent channel pairs `(2i, 2i+1)` are viewed as one
complex number, multiplied by the table entry for absolute position
`startPos + p`, and viewed back as reals (`view_as_real ... flatten`). -/
noncomputable def rotate (theta : ℝ) (dim startPos : ℕ) (x : ℕ → ℕ → ℕ → ℝ) :
    ℕ → ℕ → ℕ → ℝ :=
  fun p h c =>
    let i := c / 2
    let z : ℂ := ⟨x p h (2 * i), x p h (2 * i + 1)⟩
    let f := setup_freqs_cis theta dim (startPos + p) i
    if c % 2 = 0 then (z * f).re else (z * f).im

/-- `RoPE.forward` (`pico.py:168-201`).  Failure cases:
* `seqLen = 0`: the `reshape(..., -1, 2)` of a zero-element tensor cannot
  infer the `-1` dimension and raises;
* odd `dim`: the same reshape needs `dim` divisible by 2;
* the `assert` of `get_freqs_cis` (`pico.py:162`): the slice
  `_freqs_cis[start_pos:end_pos]` (clamped, never out of bounds) must have
  exactly `seqLen` rows.
On success both queries and keys are rotated at absolute positions
`startPos .. startPos + seqLen - 1`. -/
noncomputable def rope_forward (theta : ℝ) (dim maxSeqLen seqLen : ℕ)
    (queries keys : ℕ → ℕ → ℕ → ℝ) (startPos : ℕ) :
    Option ((ℕ → ℕ → ℕ → ℝ) × (ℕ → ℕ → ℕ → ℝ)) :=
  if 0 < seqLen ∧ dim % 2 = 0 ∧
      sliceLen maxSeqLen startPos (startPos + seqLen) = seqLen then
    some (rotate theta dim startPos queries, rotate theta dim startPos keys)
  else none

/-! ## Attention mask values -/

/-- An additive attention-mask entry: in this program every entry is either a
finite bias (always `0.0`) or `float("-inf")`. -/
inductive MaskVal
  | negInf
  | val (r : ℝ)

/-- One entry of `torch.triu(torch.full((s, s), -inf), diagonal=1)`
(`pico.py:505-509`): `-inf` strictly above the main diagonal, `0` on and
below it. -/
noncomputable def maskTriu (i j : ℕ) : MaskVal :=
  if i + 1 ≤ j then MaskVal.negInf else MaskVal.val 0

/-- Mask construction of `Pico.forward` (`pico.py:500-516`): no mask unless
`seq_len > 1`; the `(seqLen, seqLen)` causal triangle; and, when a past cache
was supplied (`past_key_values is not None`), `start_pos` prepended columns of
zeros (`torch.hstack`). -/
noncomputable def buildMask (seqLen startPos : ℕ) (hasPast : Bool) :
    Option (ℕ → ℕ → MaskVal) :=
  if 1 < seqLen then
    match hasPast with
    | true => some (fun i j =>
        if j < startPos then MaskVal.val 0 else maskTriu i (j - startPos))
    | false => some (fun i j => maskTriu i j)
  else none

/-- Reading the (optional) additive mask inside `scaled_dot_product_attention`:
a missing mask (`attn_mask=None`) is no bias at all. -/
noncomputable def maskAt (mask : Option (ℕ → ℕ → MaskVal)) (i j : ℕ) : MaskVal :=
  match mask with
  | none => MaskVal.val 0
  | some m => m i j

/-! ## Attention (`pico.py:211-335`) -/

/-- A cached key or value tensor for one layer (one batch element):
`(accumulatedSeqLen, kvHeads, headDim)` with an explicit sequence length. -/
structure KVT where
  len : ℕ
  val : ℕ → ℕ → ℕ → ℝ

/-- `Attention.__init__` (`pico.py:233-258`).  The only failing operations are
the two floor divisions (`d_model // n_heads`, `n_heads // n_kv_heads`), which
raise `ZeroDivisionError` on a zero divisor; there is no divisibility check.
On success it returns the derived `(head_dim, n_rep)`. -/
def attention_init (cfg : ModelConfig) : Option (ℕ × ℕ) :=
  if cfg.attention_n_heads = 0 ∨ cfg.attention_n_kv_heads = 0 then none
  else some (headDim cfg, nRepF cfg)

/-- Query projection + head view (`pico.py:283-290`): flat output channel
`h * head_dim + c` of the bias-free projection. -/
noncomputable def qProj (cfg : ModelConfig) (w : ℕ → ℕ → ℝ) (input : ℕ → ℕ → ℝ) :
    ℕ → ℕ → ℕ → ℝ :=
  fun p h c => linear w cfg.d_model (input p) (h * headDim cfg + c)

/-- Sequence-axis concatenation `torch.cat([past, new], dim=1)`
(`pico.py:302-304`). -/
noncomputable def concatKV (pastLen : ℕ) (past new : ℕ → ℕ → ℕ → ℝ) :
    ℕ → ℕ → ℕ → ℝ :=
  fun p h c => if p < pastLen then past p h c else new (p - pastLen) h c

/-- The success condition of `F.scaled_dot_product_attention` for the shapes
this program passes (`pico.py:323-330`): either the key/value head count
equals the query head count (then `enable_gqa=False` and the head axes must
match), or `enable_gqa=True` is passed (which the code does exactly when
`n_rep > 1`) and the query head count must be divisible by the key/value head
count. -/
def sdpaOk (cfg : ModelConfig) : Prop :=
  cfg.attention_n_kv_heads = cfg.attention_n_heads ∨
    (1 < nRepF cfg ∧ cfg.attention_n_heads % cfg.attention_n_kv_heads = 0)

instance (cfg : ModelConfig) : Decidable (sdpaOk cfg) := by
  unfold sdpaOk; infer_instance

/-- Unnormalized softmax weight of query position `p`, key position `j`,
query head `qh` in `scaled_dot_product_attention`: the score is the
`1/sqrt(head_dim)`-scaled dot product of the rotated query with the rotated
key of kv-head `qh / n_rep` (grouped-query broadcasting), plus the additive
mask; a `-inf` mask entry contributes weight `0` (the exact value of
`exp(-∞)`). -/
noncomputable def sdpaWeight (hd nRep : ℕ) (q k : ℕ → ℕ → ℕ → ℝ)
    (mask : Option (ℕ → ℕ → MaskVal)) (p j qh : ℕ) : ℝ :=
  match maskAt mask p j with
  | MaskVal.negInf => 0
  | MaskVal.val r =>
      Real.exp ((∑ c in Finset.range hd, q p qh c * k j (qh / nRep) c) /
        Real.sqrt (hd : ℝ) + r)

/-- Per-head output of `scaled_dot_product_attention` over `kvLen` key/value
positions: the softmax-weighted average of the values. -/
noncomputable def sdpaOut (hd nRep kvLen : ℕ) (q k v : ℕ → ℕ → ℕ → ℝ)
    (mask : Option (ℕ → ℕ → MaskVal)) : ℕ → ℕ → ℕ → ℝ :=
  fun p qh c =>
    (∑ j in Finset.range kvLen, sdpaWeight hd nRep q k mask p j qh * v j (qh / nRep) c) /
      (∑ j in Finset.range kvLen, sdpaWeight hd nRep q k mask p j qh)

/-- Head-merging view `transpose(1,2).view(bsz, seq_len, -1)` (`pico.py:332`):
flat channel `c` is channel `c % head_dim` of head `c / head_dim`. -/
noncomputable def mergeHeads (hd : ℕ) (t : ℕ → ℕ → ℕ → ℝ) : ℕ → ℕ → ℝ :=
  fun p c => t p (c / hd) (c % hd)

/-- Weights of one `Attention` block. -/
structure AttentionWeights where
  q_proj : ℕ → ℕ → ℝ
  k_proj : ℕ → ℕ → ℝ
  v_proj : ℕ → ℕ → ℝ
  o_proj : ℕ → ℕ → ℝ

/-- Attention output as a function of the (already rotated/concatenated)
queries, keys and values: grouped-query scaled-dot-product attention, head
merge, output projection (`pico.py:313-333`). -/
noncomputable def attnOutF (cfg : ModelConfig) (w : AttentionWeights) (kvLen : ℕ)
    (q k v : ℕ → ℕ → ℕ → ℝ) (mask : Option (ℕ → ℕ → MaskVal)) : ℕ → ℕ → ℝ :=
  fun p => linear w.o_proj (cfg.attention_n_heads * headDim cfg)
    (mergeHeads (headDim cfg) (sdpaOut (headDim cfg) (nRepF cfg) kvLen q k v mask) p)

/-- The body of `Attention.forward` (`pico.py:282-335`) once `start_pos` has
been read off the past cache: project, view into heads, rotate at `start_pos`,
concatenate the past keys/values, capture the cache (iff `use_cache`), run
grouped-query scaled-dot-product attention, merge heads, output-project.
The `vLen = startPos + seqLen` guard is the shape check of
`scaled_dot_product_attention` (keys and values must agree on the sequence
axis), which fails when the two halves of the supplied cache have different
lengths. -/
noncomputable def attention_main (cfg : ModelConfig) (w : AttentionWeights)
    (seqLen : ℕ) (input : ℕ → ℕ → ℝ) (mask : Option (ℕ → ℕ → MaskVal))
    (past : Option (KVT × KVT)) (useCache : Bool) :
    Option ((ℕ → ℕ → ℝ) × (Option KVT × Option KVT)) :=
  match rope_forward cfg.position_emb_theta (headDim cfg) cfg.max_seq_len seqLen
      (qProj cfg w.q_proj input) (qProj cfg w.k_proj input)
      (match past with | none => 0 | some pc => pc.1.len) with
  | none => none
  | some qk =>
      let startPos : ℕ := match past with | none => 0 | some pc => pc.1.len
      let keys2 : ℕ → ℕ → ℕ → ℝ :=
        match past with
        | none => qk.2
        | some pc => concatKV pc.1.len pc.1.val qk.2
      let vals2 : ℕ → ℕ → ℕ → ℝ :=
        match past with
        | none => qProj cfg w.v_proj input
        | some pc => concatKV pc.2.len pc.2.val (qProj cfg w.v_proj input)
      let kvLen : ℕ := startPos + seqLen
      let vLen : ℕ := (match past with | none => 0 | some pc => pc.2.len) + seqLen
      if sdpaOk cfg ∧ vLen = kvLen then
        some (attnOutF cfg w kvLen qk.1 keys2 vals2 mask,
              if useCache then (some ⟨kvLen, keys2⟩, some ⟨vLen, vals2⟩)
              else (none, none))
      else none

/-- `Attention.forward` (`pico.py:260-335`).  The per-layer past cache is the
pair `(cached_keys, cached_values)`; `start_pos` is read from
`past_key_values[0].shape[1]`, so a supplied pair whose components are `None`
raises (`AttributeError` on `.shape`, or `cat` on `None`).  Note the returned
cache component is always a pair — `(None, None)` when `use_cache` is false
(`pico.py:306-311`, `pico.py:335`). -/
noncomputable def attention_forward (cfg : ModelConfig) (w : AttentionWeights)
    (seqLen : ℕ) (input : ℕ → ℕ → ℝ) (mask : Option (ℕ → ℕ → MaskVal))
    (past : Option (Option KVT × Option KVT)) (useCache : Bool) :
    Option ((ℕ → ℕ → ℝ) × (Option KVT × Option KVT)) :=
  match past with
  | none => attention_main cfg w seqLen input mask none useCache
  | some (some pk, some pv) =>
      attention_main cfg w seqLen input mask (some (pk, pv)) useCache
  | some _ => none

/-! ## SwiGLU (`pico.py:345-371`) -/

/-- `F.silu(z) = z * sigmoid(z) = z / (1 + exp(-z))`. -/
noncomputable def silu (z : ℝ) : ℝ := z * (1 + Real.exp (-z))⁻¹

/-- Weights of one `SwiGLU` block. -/
structure SwiGLUWeights where
  w_0 : ℕ → ℕ → ℝ
  w_1 : ℕ → ℕ → ℝ
  w_2 : ℕ → ℕ → ℝ

/-- `SwiGLU.forward` (`pico.py:370-371`): `w_2(F.silu(w_0 x) * w_1 x)`. -/
noncomputable def swiglu_forward (cfg : ModelConfig) (w : SwiGLUWeights) (x : ℕ → ℝ) :
    ℕ → ℝ :=
  linear w.w_2 cfg.activation_hidden_dim
    (fun hc => silu (linear w.w_0 cfg.d_model x hc) * linear w.w_1 cfg.d_model x hc)

/-! ## PicoBlock (`pico.py:381-423`) -/

/-- Weights of one `PicoBlock`. -/
structure BlockWeights where
  attention : AttentionWeights
  swiglu : SwiGLUWeights
  attention_norm : ℕ → ℝ
  swiglu_norm : ℕ → ℝ

/-- `PicoBlock.forward` (`pico.py:406-423`):
`h = input + attention(attention_norm(input), ...)`;
`out = h + swiglu(swiglu_norm(h))`; the layer cache is passed through. -/
noncomputable def pico_block_forward (cfg : ModelConfig) (w : BlockWeights)
    (seqLen : ℕ) (input : ℕ → ℕ → ℝ) (mask : Option (ℕ → ℕ → MaskVal))
    (past : Option (Option KVT × Option KVT)) (useCache : Bool) :
    Option ((ℕ → ℕ → ℝ) × (Option KVT × Option KVT)) :=
  match attention_forward cfg w.attention seqLen
      (fun p => rmsnorm_forward cfg.norm_eps cfg.d_model w.attention_norm (input p))
      mask past useCache with
  | none => none
  | some res =>
      some (fun p c =>
              (input p c + res.1 p c) +
                swiglu_forward cfg w.swiglu
                  (rmsnorm_forward cfg.norm_eps cfg.d_model w.swiglu_norm
                    (fun cc => input p cc + res.1 p cc)) c,
            res.2)

/-! ## Pico (`pico.py:433-539`) -/

/-- Weights of the whole `Pico` model; `layers` is the `nn.ModuleList` built
with `n_layers` entries at construction (`pico.py:450-452`). -/
structure PicoWeights where
  embedding_proj : ℕ → ℕ → ℝ
  layers : List BlockWeights
  output_norm : ℕ → ℝ
  de_embedding_proj : ℕ → ℕ → ℝ

/-- The layer loop of `Pico.forward` (`pico.py:523-533`): each layer consumes
`past_key_values[idx]` (an `IndexError` — `none` — if the supplied cache has
fewer entries than there are layers; extra entries are ignored) and its
per-layer cache is accumulated in order. -/
noncomputable def run_layers (cfg : ModelConfig) (seqLen : ℕ)
    (mask : Option (ℕ → ℕ → MaskVal)) (useCache : Bool) :
    List BlockWeights → Option (List (Option KVT × Option KVT)) → (ℕ → ℕ → ℝ) →
    Option ((ℕ → ℕ → ℝ) × List (Option KVT × Option KVT))
  | [], _, h => some (h, [])
  | bw :: ws, past, h =>
      match (match past with
             | none => some ((none : Option (Option KVT × Option KVT)),
                             (none : Option (List (Option KVT × Option KVT))))
             | some [] => none
             | some (c :: cs) => some (some c, some cs)) with
      | none => none
      | some pr =>
          match pico_block_forward cfg bw seqLen h mask pr.1 useCache with
          | none => none
          | some res =>
              match run_layers cfg seqLen mask useCache ws pr.2 res.1 with
              | none => none
              | some out => some (out.1, res.2 :: out.2)

/-- `Pico.forward` (`pico.py:471-539`): embedding lookup (an out-of-range
token id raises), `start_pos` from `past_key_values[0][0].shape[1]` (raises on
an empty cache tuple or a `None` entry), mask construction, the layer loop,
final norm and vocabulary projection.  The returned cache is the accumulated
tuple when `use_cache` and `None` otherwise (`pico.py:520`). -/
noncomputable def pico_forward (cfg : ModelConfig) (w : PicoWeights) (seqLen : ℕ)
    (input_ids : ℕ → ℕ) (past : Option (List (Option KVT × Option KVT)))
    (useCache : Bool) :
    Option ((ℕ → ℕ → ℝ) × Option (List (Option KVT × Option KVT))) :=
  if ∀ p, p < seqLen → input_ids p < cfg.vocab_size then
    match (match past with
           | none => some 0
           | some [] => none
           | some (c :: _) =>
               match c.1 with
               | some kt => some kt.len
               | none => none) with
    | none => none
    | some startPos =>
        match run_layers cfg seqLen (buildMask seqLen startPos past.isSome) useCache
            w.layers past (fun p c => w.embedding_proj (input_ids p) c) with
        | none => none
        | some res =>
            some (fun p v =>
                    linear w.de_embedding_proj cfg.d_model
                      (rmsnorm_forward cfg.norm_eps cfg.d_model w.output_norm (res.1 p)) v,
                  if useCache then some res.2 else none)
  else none

/-! ## PicoHF (`pico.py:563-625`) -/

/-- The HuggingFace-style output of `PicoHF.forward`: a
`CausalLMOutputWithPast` (which has a `past_key_values` field) when
`use_cache`, otherwise a `CausalLMOutput` (which has no such field). -/
inductive HFOutput
  | withPast (logits : ℕ → ℕ → ℝ)
      (past_key_values : Option (List (Option KVT × Option KVT)))
  | noPast (logits : ℕ → ℕ → ℝ)

/-- `PicoHF.forward` (`pico.py:604-625`): wraps `Pico.forward` and chooses the
output struct by `use_cache`. -/
noncomputable def pico_hf_forward (cfg : ModelConfig) (w : PicoWeights) (seqLen : ℕ)
    (input_ids : ℕ → ℕ) (past : Option (List (Option KVT × Option KVT)))
    (useCache : Bool) : Option HFOutput :=
  match pico_forward cfg w seqLen input_ids past useCache with
  | none => none
  | some res =>
      if useCache then some (HFOutput.withPast res.1 res.2)
      else some (HFOutput.noPast res.1)

/-! ## PicoHFConfig (`pico.py:563-591`)

A `PicoHFConfig` object is modelled as its attribute map
`String → Option CfgVal` (the `PretrainedConfig` baseline attributes are an
arbitrary `base` map); `setattr` is pointwise update. -/

/-- A config attribute value: the `ModelConfig` fields are natural numbers or
floats. -/
inductive CfgVal
  | nat (n : ℕ)
  | real (r : ℝ)

/-- Python `setattr` on the attribute map. -/
def setattrC (m : String → Option CfgVal) (k : String) (v : CfgVal) :
    String → Option CfgVal :=
  fun s => if s = k then some v else m s

/-- `PicoHFConfig.from_dict` (`pico.py:568-587`) called without keyword
arguments (as `from_dataclass` does): start from a freshly constructed config
(`base`) and `setattr` every dictionary entry in order. -/
def pico_hf_config_from_dict (base : String → Option CfgVal)
    (config_dict : List (String × CfgVal)) : String → Option CfgVal :=
  config_dict.foldl (fun m kv => setattrC m kv.1 kv.2) base

/-- `dataclasses.asdict` of the spec-modelled `ModelConfig` (field order per
spec §3). -/
def asdictC (c : ModelConfig) : List (String × CfgVal) :=
  [("d_model", CfgVal.nat c.d_model),
   ("n_layers", CfgVal.nat c.n_layers),
   ("attention_n_heads", CfgVal.nat c.attention_n_heads),
   ("attention_n_kv_heads", CfgVal.nat c.attention_n_kv_heads),
   ("max_seq_len", CfgVal.nat c.max_seq_len),
   ("vocab_size", CfgVal.nat c.vocab_size),
   ("norm_eps", CfgVal.real c.norm_eps),
   ("position_emb_theta", CfgVal.real c.position_emb_theta),
   ("activation_hidden_dim", CfgVal.nat c.activation_hidden_dim),
   ("batch_size", CfgVal.nat c.batch_size)]

/-- `PicoHFConfig.from_dataclass` (`pico.py:589-591`):
`cls.from_dict(asdict(model_config))`. -/
def pico_hf_config_from_dataclass (base : String → Option CfgVal)
    (c : ModelConfig) : String → Option CfgVal :=
  pico_hf_config_from_dict base (asdictC c)

/-! ## Reference (position-wise) semantics

`refStack` computes, for every absolute position, the value the decoder stack
assigns to that position when attention at position `a` ranges over key/value
positions `0..a`.  The run lemmas below show that every actual invocation of
`pico_forward` (full sequence, cached prefix, cached decode step) computes
exactly this function at the corresponding absolute positions; cache
equivalence and causality are corollaries. -/

/-- Normalized block input at every absolute position. -/
noncomputable def refX (cfg : ModelConfig) (nrm : ℕ → ℝ) (h : ℕ → ℕ → ℝ) :
    ℕ → ℕ → ℝ :=
  fun a => rmsnorm_forward cfg.norm_eps cfg.d_model nrm (h a)

/-- Rotated queries of the normalized input, at absolute positions. -/
noncomputable def refQ (cfg : ModelConfig) (aw : AttentionWeights) (X : ℕ → ℕ → ℝ) :
    ℕ → ℕ → ℕ → ℝ :=
  rotate cfg.position_emb_theta (headDim cfg) 0 (qProj cfg aw.q_proj X)

/-- Rotated keys of the normalized input, at absolute positions. -/
noncomputable def refK (cfg : ModelConfig) (aw : AttentionWeights) (X : ℕ → ℕ → ℝ) :
    ℕ → ℕ → ℕ → ℝ :=
  rotate cfg.position_emb_theta (headDim cfg) 0 (qProj cfg aw.k_proj X)

/-- Value projections of the normalized input (never rotated). -/
noncomputable def refVd (cfg : ModelConfig) (aw : AttentionWeights) (X : ℕ → ℕ → ℝ) :
    ℕ → ℕ → ℕ → ℝ :=
  qProj cfg aw.v_proj X

/-- Unnormalized causal softmax weight of absolute query position `a` and key
position `j` for query head `qh`. -/
noncomputable def refSW (cfg : ModelConfig) (aw : AttentionWeights) (X : ℕ → ℕ → ℝ)
    (a j qh : ℕ) : ℝ :=
  Real.exp ((∑ c in Finset.range (headDim cfg),
      refQ cfg aw X a qh c * refK cfg aw X j (qh / nRepF cfg) c) /
    Real.sqrt (headDim cfg : ℝ))

/-- Per-head causal attention output at absolute position `a`: softmax over
key positions `0..a`. -/
noncomputable def refHeadOut (cfg : ModelConfig) (aw : AttentionWeights)
    (X : ℕ → ℕ → ℝ) : ℕ → ℕ → ℕ → ℝ :=
  fun a qh c =>
    (∑ j in Finset.range (a + 1), refSW cfg aw X a j qh * refVd cfg aw X j (qh / nRepF cfg) c) /
      (∑ j in Finset.range (a + 1), refSW cfg aw X a j qh)

/-- Causal attention block output at absolute positions. -/
noncomputable def refAttn (cfg : ModelConfig) (aw : AttentionWeights)
    (X : ℕ → ℕ → ℝ) : ℕ → ℕ → ℝ :=
  fun a => linear aw.o_proj (cfg.attention_n_heads * headDim cfg)
    (mergeHeads (headDim cfg) (refHeadOut cfg aw X) a)

/-- Post-attention residual state of one decoder block, at absolute positions. -/
noncomputable def refBlockH (cfg : ModelConfig) (bw : BlockWeights) (h : ℕ → ℕ → ℝ) :
    ℕ → ℕ → ℝ :=
  fun a c => h a c + refAttn cfg bw.attention (refX cfg bw.attention_norm h) a c

/-- One decoder block, at absolute positions. -/
noncomputable def refBlock (cfg : ModelConfig) (bw : BlockWeights) (h : ℕ → ℕ → ℝ) :
    ℕ → ℕ → ℝ :=
  fun a c =>
    refBlockH cfg bw h a c +
      swiglu_forward cfg bw.swiglu
        (rmsnorm_forward cfg.norm_eps cfg.d_model bw.swiglu_norm (refBlockH cfg bw h a)) c

/-- The decoder stack, at absolute positions. -/
noncomputable def refStack (cfg : ModelConfig) : List BlockWeights → (ℕ → ℕ → ℝ) → ℕ → ℕ → ℝ
  | [], h => h
  | bw :: ws, h => refStack cfg ws (refBlock cfg bw h)

/-- Final norm plus vocabulary projection, at absolute positions. -/
noncomputable def refLogitsH (cfg : ModelConfig) (w : PicoWeights) (h : ℕ → ℕ → ℝ) :
    ℕ → ℕ → ℝ :=
  fun a v =>
    linear w.de_embedding_proj cfg.d_model
      (rmsnorm_forward cfg.norm_eps cfg.d_model w.output_norm
        (refStack cfg w.layers h a)) v

/-- Well-formedness of a supplied model cache relative to the reference state
`h`: layer by layer, the entry is a pair of present tensors of length `start`
holding exactly the reference rotated keys / raw values of that layer at
positions `< start`.  A cache longer than the layer list is allowed (the
extra entries are ignored), a shorter one is not. -/
def cacheRel (cfg : ModelConfig) (start : ℕ) :
    List BlockWeights → List (Option KVT × Option KVT) → (ℕ → ℕ → ℝ) → Prop
  | [], _, _ => True
  | bw :: ws, l, h =>
      ∃ pk pv rest, l = (some pk, some pv) :: rest ∧ pk.len = start ∧ pv.len = start ∧
        (∀ j, j < start →
          pk.val j = refK cfg bw.attention (refX cfg bw.attention_norm h) j) ∧
        (∀ j, j < start →
          pv.val j = refVd cfg bw.attention (refX cfg bw.attention_norm h) j) ∧
        cacheRel cfg start ws rest (refBlock cfg bw h)

/-! ## Concrete instances for witnesses and counterexamples -/

/-- All-zero rank-3 tensor. -/
def zero3 : ℕ → ℕ → ℕ → ℝ := fun _ _ _ => 0

/-- All-zero matrix. -/
def zero2 : ℕ → ℕ → ℝ := fun _ _ => 0

/-- All-zero vector. -/
def zero1 : ℕ → ℝ := fun _ => 0

/-- A tiny valid configuration: `d_model=2`, one layer, one head, one kv head,
`max_seq_len=8`, `vocab_size=2`. -/
def cfgA : ModelConfig :=
  { d_model := 2, n_layers := 1, attention_n_heads := 1, attention_n_kv_heads := 1,
    max_seq_len := 8, vocab_size := 2, norm_eps := 1, position_emb_theta := 1,
    activation_hidden_dim := 1, batch_size := 1 }

/-- A configuration with a non-integral grouped-query ratio:
`attention_n_heads = 3`, `attention_n_kv_heads = 2`. -/
def cfgB : ModelConfig :=
  { d_model := 6, n_layers := 1, attention_n_heads := 3, attention_n_kv_heads := 2,
    max_seq_len := 8, vocab_size := 2, norm_eps := 1, position_emb_theta := 1,
    activation_hidden_dim := 1, batch_size := 1 }

/-- All-zero attention weights. -/
def zeroAW : AttentionWeights := ⟨zero2, zero2, zero2, zero2⟩

/-- All-zero SwiGLU weights. -/
def zeroSW : SwiGLUWeights := ⟨zero2, zero2, zero2⟩

/-- All-zero block weights. -/
def zeroBW : BlockWeights := ⟨zeroAW, zeroSW, zero1, zero1⟩

/-- All-zero one-layer model weights. -/
def zeroPW : PicoWeights := ⟨zero2, [zeroBW], zero1, zero2⟩

/-- A one-entry layer cache of sequence length `n`, holding zeros. -/
def zeroCache (n : ℕ) : List (Option KVT × Option KVT) :=
  [(some ⟨n, zero3⟩, some ⟨n, zero3⟩)]

/-- The constant token sequence `0, 0, 0, ...`. -/
def tok0 : ℕ → ℕ := fun _ => 0

/-- Projection to the cache component of an attention result. -/
def attnCachePart (r : Option ((ℕ → ℕ → ℝ) × (Option KVT × Option KVT))) :
    Option (Option KVT × Option KVT) :=
  r.map Prod.snd

/-! # Lemmas -/

theorem sliceLen_of_le {maxL s L : ℕ} (h : s + L ≤ maxL) :
    sliceLen maxL s (s + L) = L := by
  simp only [sliceLen]; omega

theorem sliceLen_of_gt {maxL s L : ℕ} (h : maxL < s + L) (hL : 0 < L) :
    sliceLen maxL s (s + L) ≠ L := by
  simp only [sliceLen]; omega

theorem rope_forward_some {θ : ℝ} {d maxL L s : ℕ} (q k : ℕ → ℕ → ℕ → ℝ)
    (h0 : 0 < L) (h2 : d % 2 = 0) (hm : s + L ≤ maxL) :
    rope_forward θ d maxL L q k s = some (rotate θ d s q, rotate θ d s k) := by
  rw [rope_forward, if_pos ⟨h0, h2, sliceLen_of_le hm⟩]

theorem rope_forward_oob {θ : ℝ} {d maxL L s : ℕ} (q k : ℕ → ℕ → ℕ → ℝ)
    (hm : maxL < s + L) :
    rope_forward θ d maxL L q k s = none := by
  rw [rope_forward, if_neg]
  rintro ⟨h0, _, hs⟩
  exact sliceLen_of_gt hm h0 hs

theorem concatKV_lt {s : ℕ} {a b : ℕ → ℕ → ℕ → ℝ} {j : ℕ} (h : j < s) :
    concatKV s a b j = a j :=
  funext fun _ => funext fun _ => if_pos h

theorem concatKV_ge {s : ℕ} {a b : ℕ → ℕ → ℕ → ℝ} {j : ℕ} (h : s ≤ j) :
    concatKV s a b j = b (j - s) :=
  funext fun _ => funext fun _ => if_neg (by omega)

theorem attention_main_none_eq (cfg : ModelConfig) (w : AttentionWeights)
    (L : ℕ) (input : ℕ → ℕ → ℝ) (mask : Option (ℕ → ℕ → MaskVal)) (useCache : Bool)
    (h0 : 0 < L) (h2 : headDim cfg % 2 = 0) (hm : L ≤ cfg.max_seq_len)
    (hok : sdpaOk cfg) :
    attention_main cfg w L input mask none useCache =
      some (attnOutF cfg w (0 + L)
              (rotate cfg.position_emb_theta (headDim cfg) 0 (qProj cfg w.q_proj input))
              (rotate cfg.position_emb_theta (headDim cfg) 0 (qProj cfg w.k_proj input))
              (qProj cfg w.v_proj input) mask,
            if useCache then
              (some ⟨0 + L, rotate cfg.position_emb_theta (headDim cfg) 0
                      (qProj cfg w.k_proj input)⟩,
               some ⟨0 + L, qProj cfg w.v_proj input⟩)
            else (none, none)) := by
  unfold attention_main
  dsimp only
  rw [rope_forward_some _ _ h0 h2 (by omega)]
  exact if_pos ⟨hok, rfl⟩

theorem attention_main_some_eq (cfg : ModelConfig) (w : AttentionWeights)
    (L : ℕ) (input : ℕ → ℕ → ℝ) (mask : Option (ℕ → ℕ → MaskVal))
    (pk pv : KVT) (useCache : Bool)
    (h0 : 0 < L) (h2 : headDim cfg % 2 = 0) (hm : pk.len + L ≤ cfg.max_seq_len)
    (hok : sdpaOk cfg) (hvlen : pv.len = pk.len) :
    attention_main cfg w L input mask (some (pk, pv)) useCache =
      some (attnOutF cfg w (pk.len + L)
              (rotate cfg.position_emb_theta (headDim cfg) pk.len (qProj cfg w.q_proj input))
              (concatKV pk.len pk.val
                (rotate cfg.position_emb_theta (headDim cfg) pk.len (qProj cfg w.k_proj input)))
              (concatKV pv.len pv.val (qProj cfg w.v_proj input)) mask,
            if useCache then
              (some ⟨pk.len + L, concatKV pk.len pk.val
                      (rotate cfg.position_emb_theta (headDim cfg) pk.len
                        (qProj cfg w.k_proj input))⟩,
               some ⟨pv.len + L, concatKV pv.len pv.val (qProj cfg w.v_proj input)⟩)
            else (none, none)) := by
  unfold attention_main
  dsimp only
  rw [rope_forward_some _ _ h0 h2 hm]
  exact if_pos ⟨hok, by rw [hvlen]⟩

theorem rotate_shift {θ : ℝ} {d s L : ℕ} {Y Yabs : ℕ → ℕ → ℕ → ℝ}
    (hY : ∀ p, p < L → Y p = Yabs (s + p)) :
    ∀ p, p < L → rotate θ d s Y p = rotate θ d 0 Yabs (s + p) := by
  intro p hp
  funext h c
  simp only [rotate, hY p hp, Nat.zero_add]

theorem qProj_shift {cfg : ModelConfig} {w : ℕ → ℕ → ℝ} {x Xabs : ℕ → ℕ → ℝ}
    {s L : ℕ} (hx : ∀ p, p < L → x p = Xabs (s + p)) :
    ∀ p, p < L → qProj cfg w x p = qProj cfg w Xabs (s + p) := by
  intro p hp
  funext h c
  simp only [qProj, hx p hp]

theorem maskTriu_sem (i j : ℕ) :
    maskTriu i j = if j ≤ i then MaskVal.val 0 else MaskVal.negInf := by
  unfold maskTriu
  split_ifs <;> first | rfl | omega

theorem maskPast_sem (s i j : ℕ) :
    (if j < s then MaskVal.val 0 else maskTriu i (j - s)) =
      if j ≤ s + i then MaskVal.val 0 else MaskVal.negInf := by
  rw [maskTriu_sem]
  split_ifs <;> first | rfl | omega

theorem maskAt_buildMask {L s : ℕ} {hp : Bool} (h0 : 0 < L)
    (hwire : hp = false → s = 0) {i j : ℕ} (hi : i < L) (hj : j < s + L) :
    maskAt (buildMask L s hp) i j =
      if j ≤ s + i then MaskVal.val 0 else MaskVal.negInf := by
  rcases Nat.lt_or_ge 1 L with hL | hL
  · cases hp
    · have hs : s = 0 := hwire rfl
      subst hs
      simp only [buildMask, if_pos hL, maskAt]
      rw [maskTriu_sem, Nat.zero_add]
    · simp only [buildMask, if_pos hL, maskAt]
      rw [maskPast_sem]
  · have hL1 : L = 1 := by omega
    subst hL1
    have hi0 : i = 0 := by omega
    subst hi0
    simp only [buildMask, maskAt, if_neg (by omega : ¬ 1 < 1)]
    rw [if_pos (by omega : j ≤ s + 0)]

theorem sum_ite_le_eq {n a : ℕ} (h : a < n) (f : ℕ → ℝ) :
    (∑ j in Finset.range n, if j ≤ a then f j else 0) =
      ∑ j in Finset.range (a + 1), f j := by
  rw [← Finset.sum_subset (Finset.range_subset.mpr h)
      (fun j _ hj => if_neg fun hja => hj (Finset.mem_range.mpr (Nat.lt_succ_iff.mpr hja)))]
  exact Finset.sum_congr rfl fun j hj =>
    if_pos (Nat.lt_succ_iff.mp (Finset.mem_range.mp hj))

theorem sdpaWeight_ref (cfg : ModelConfig) (aw : AttentionWeights) (X : ℕ → ℕ → ℝ)
    (s L : ℕ) (q2 k2 : ℕ → ℕ → ℕ → ℝ) (mask : Option (ℕ → ℕ → MaskVal))
    (hq : ∀ p, p < L → q2 p = refQ cfg aw X (s + p))
    (hk : ∀ j, j < s + L → k2 j = refK cfg aw X j)
    (hmask : ∀ i, i < L → ∀ j, j < s + L →
      maskAt mask i j = if j ≤ s + i then MaskVal.val 0 else MaskVal.negInf)
    {p : ℕ} (hp : p < L) {j : ℕ} (hj : j < s + L) (qh : ℕ) :
    sdpaWeight (headDim cfg) (nRepF cfg) q2 k2 mask p j qh =
      if j ≤ s + p then refSW cfg aw X (s + p) j qh else 0 := by
  by_cases hle : j ≤ s + p
  · rw [if_pos hle]
    unfold sdpaWeight
    rw [hmask p hp j hj, if_pos hle]
    show Real.exp ((∑ c in Finset.range (headDim cfg),
        q2 p qh c * k2 j (qh / nRepF cfg) c) / Real.sqrt (headDim cfg : ℝ) + 0) = _
    rw [add_zero, hq p hp, hk j hj]
    rfl
  · rw [if_neg hle]
    unfold sdpaWeight
    rw [hmask p hp j hj, if_neg hle]

theorem sdpaOut_ref (cfg : ModelConfig) (aw : AttentionWeights) (X : ℕ → ℕ → ℝ)
    (s L : ℕ) (q2 k2 v2 : ℕ → ℕ → ℕ → ℝ) (mask : Option (ℕ → ℕ → MaskVal))
    (hq : ∀ p, p < L → q2 p = refQ cfg aw X (s + p))
    (hk : ∀ j, j < s + L → k2 j = refK cfg aw X j)
    (hv : ∀ j, j < s + L → v2 j = refVd cfg aw X j)
    (hmask : ∀ i, i < L → ∀ j, j < s + L →
      maskAt mask i j = if j ≤ s + i then MaskVal.val 0 else MaskVal.negInf)
    {p : ℕ} (hp : p < L) (qh c : ℕ) :
    sdpaOut (headDim cfg) (nRepF cfg) (s + L) q2 k2 v2 mask p qh c =
      refHeadOut cfg aw X (s + p) qh c := by
  have hspL : s + p < s + L := by omega
  have hnum : (∑ j in Finset.range (s + L),
      sdpaWeight (headDim cfg) (nRepF cfg) q2 k2 mask p j qh * v2 j (qh / nRepF cfg) c) =
      ∑ j in Finset.range (s + p + 1),
        refSW cfg aw X (s + p) j qh * refVd cfg aw X j (qh / nRepF cfg) c := by
    rw [← sum_ite_le_eq hspL]
    refine Finset.sum_congr rfl fun j hj => ?_
    have hjL := Finset.mem_range.mp hj
    rw [sdpaWeight_ref cfg aw X s L q2 k2 mask hq hk hmask hp hjL qh, hv j hjL,
      ite_mul, zero_mul]
  have hden : (∑ j in Finset.range (s + L),
      sdpaWeight (headDim cfg) (nRepF cfg) q2 k2 mask p j qh) =
      ∑ j in Finset.range (s + p + 1), refSW cfg aw X (s + p) j qh := by
    rw [← sum_ite_le_eq hspL]
    exact Finset.sum_congr rfl fun j hj =>
      sdpaWeight_ref cfg aw X s L q2 k2 mask hq hk hmask hp (Finset.mem_range.mp hj) qh
  unfold sdpaOut refHeadOut
  rw [hnum, hden]

theorem attnOutF_ref (cfg : ModelConfig) (aw : AttentionWeights) (X : ℕ → ℕ → ℝ)
    (s L : ℕ) (q2 k2 v2 : ℕ → ℕ → ℕ → ℝ) (mask : Option (ℕ → ℕ → MaskVal))
    (hq : ∀ p, p < L → q2 p = refQ cfg aw X (s + p))
    (hk : ∀ j, j < s + L → k2 j = refK cfg aw X j)
    (hv : ∀ j, j < s + L → v2 j = refVd cfg aw X j)
    (hmask : ∀ i, i < L → ∀ j, j < s + L →
      maskAt mask i j = if j ≤ s + i then MaskVal.val 0 else MaskVal.negInf)
    {p : ℕ} (hp : p < L) (c : ℕ) :
    attnOutF cfg aw (s + L) q2 k2 v2 mask p c = refAttn cfg aw X (s + p) c := by
  unfold attnOutF refAttn linear
  refine Finset.sum_congr rfl fun cc _ => ?_
  unfold mergeHeads
  rw [sdpaOut_ref cfg aw X s L q2 k2 v2 mask hq hk hv hmask hp]

theorem attention_forward_ref (cfg : ModelConfig) (aw : AttentionWeights)
    (L s : ℕ) (xRun X : ℕ → ℕ → ℝ) (mask : Option (ℕ → ℕ → MaskVal))
    (past : Option (Option KVT × Option KVT)) (useCache : Bool)
    (h0 : 0 < L) (h2 : headDim cfg % 2 = 0) (hm : s + L ≤ cfg.max_seq_len)
    (hok : sdpaOk cfg)
    (hx : ∀ p, p < L → xRun p = X (s + p))
    (hmask : ∀ i, i < L → ∀ j, j < s + L →
      maskAt mask i j = if j ≤ s + i then MaskVal.val 0 else MaskVal.negInf)
    (hpast : (past = none ∧ s = 0) ∨
      (∃ pk pv, past = some (some pk, some pv) ∧ pk.len = s ∧ pv.len = s ∧
        (∀ j, j < s → pk.val j = refK cfg aw X j) ∧
        (∀ j, j < s → pv.val j = refVd cfg aw X j))) :
    ∃ out kc vc,
      attention_forward cfg aw L xRun mask past useCache = some (out, (kc, vc)) ∧
      (∀ p, p < L → ∀ c, out p c = refAttn cfg aw X (s + p) c) ∧
      (useCache = true → ∃ kt vt, kc = some kt ∧ vc = some vt ∧
        kt.len = s + L ∧ vt.len = s + L ∧
        (∀ j, j < s + L → kt.val j = refK cfg aw X j) ∧
        (∀ j, j < s + L → vt.val j = refVd cfg aw X j)) ∧
      (useCache = false → kc = none ∧ vc = none) := by
  rcases hpast with ⟨hpn, hs⟩ | ⟨pk, pv, hpe, hkl, hvl, hkv, hvv⟩
  · subst hs
    subst hpn
    have hq : ∀ p, p < L →
        rotate cfg.position_emb_theta (headDim cfg) 0 (qProj cfg aw.q_proj xRun) p =
          refQ cfg aw X (0 + p) := fun p hp =>
      rotate_shift (qProj_shift hx) p hp
    have hk : ∀ j, j < 0 + L →
        rotate cfg.position_emb_theta (headDim cfg) 0 (qProj cfg aw.k_proj xRun) j =
          refK cfg aw X j := by
      intro j hj
      have hjL : j < L := by omega
      rw [rotate_shift (qProj_shift hx) j hjL]
      rw [Nat.zero_add]
      rfl
    have hv : ∀ j, j < 0 + L → qProj cfg aw.v_proj xRun j = refVd cfg aw X j := by
      intro j hj
      have hjL : j < L := by omega
      rw [qProj_shift hx j hjL, Nat.zero_add]
      rfl
    simp only [attention_forward]
    rw [attention_main_none_eq cfg aw L xRun mask useCache h0 h2 (by omega) hok]
    cases useCache
    · rw [if_neg Bool.false_ne_true]
      refine ⟨_, _, _, rfl, ?_, ?_, fun _ => ⟨rfl, rfl⟩⟩
      · intro p hp c
        exact attnOutF_ref cfg aw X 0 L _ _ _ mask hq hk hv hmask hp c
      · intro hcon
        exact Bool.noConfusion hcon
    · rw [if_pos rfl]
      refine ⟨_, _, _, rfl, ?_, ?_, ?_⟩
      · intro p hp c
        exact attnOutF_ref cfg aw X 0 L _ _ _ mask hq hk hv hmask hp c
      · intro _
        exact ⟨⟨0 + L, _⟩, ⟨0 + L, _⟩, rfl, rfl, rfl, rfl, hk, hv⟩
      · intro hcon
        exact Bool.noConfusion hcon
  · subst hpe
    have hq : ∀ p, p < L →
        rotate cfg.position_emb_theta (headDim cfg) s (qProj cfg aw.q_proj xRun) p =
          refQ cfg aw X (s + p) := fun p hp =>
      rotate_shift (qProj_shift hx) p hp
    have hk : ∀ j, j < s + L →
        concatKV s pk.val
          (rotate cfg.position_emb_theta (headDim cfg) s (qProj cfg aw.k_proj xRun)) j =
          refK cfg aw X j := by
      intro j hj
      by_cases hjs : j < s
      · rw [concatKV_lt hjs]
        exact hkv j hjs
      · have hsj : s ≤ j := by omega
        rw [concatKV_ge hsj]
        have hjL : j - s < L := by omega
        rw [rotate_shift (qProj_shift hx) (j - s) hjL, Nat.add_sub_cancel' hsj]
        rfl
    have hv : ∀ j, j < s + L →
        concatKV s pv.val (qProj cfg aw.v_proj xRun) j = refVd cfg aw X j := by
      intro j hj
      by_cases hjs : j < s
      · rw [concatKV_lt hjs]
        exact hvv j hjs
      · have hsj : s ≤ j := by omega
        rw [concatKV_ge hsj]
        have hjL : j - s < L := by omega
        rw [qProj_shift hx (j - s) hjL, Nat.add_sub_cancel' hsj]
        rfl
    simp only [attention_forward]
    rw [attention_main_some_eq cfg aw L xRun mask pk pv useCache h0 h2
      (by rw [hkl]; exact hm) hok (by rw [hvl, hkl]), hkl, hvl]
    cases useCache
    · rw [if_neg Bool.false_ne_true]
      refine ⟨_, _, _, rfl, ?_, ?_, fun _ => ⟨rfl, rfl⟩⟩
      · intro p hp c
        exact attnOutF_ref cfg aw X s L _ _ _ mask hq hk hv hmask hp c
      · intro hcon
        exact Bool.noConfusion hcon
    · rw [if_pos rfl]
      refine ⟨_, _, _, rfl, ?_, ?_, ?_⟩
      · intro p hp c
        exact attnOutF_ref cfg aw X s L _ _ _ mask hq hk hv hmask hp c
      · intro _
        exact ⟨⟨s + L, _⟩, ⟨s + L, _⟩, rfl, rfl, rfl, rfl, hk, hv⟩
      · intro hcon
        exact Bool.noConfusion hcon

theorem block_forward_ref (cfg : ModelConfig) (bw : BlockWeights)
    (L s : ℕ) (hRun hRef : ℕ → ℕ → ℝ) (mask : Option (ℕ → ℕ → MaskVal))
    (past : Option (Option KVT × Option KVT)) (useCache : Bool)
    (h0 : 0 < L) (h2 : headDim cfg % 2 = 0) (hm : s + L ≤ cfg.max_seq_len)
    (hok : sdpaOk cfg)
    (hmask : ∀ i, i < L → ∀ j, j < s + L →
      maskAt mask i j = if j ≤ s + i then MaskVal.val 0 else MaskVal.negInf)
    (hh : ∀ p, p < L → hRun p = hRef (s + p))
    (hpast : (past = none ∧ s = 0) ∨
      (∃ pk pv, past = some (some pk, some pv) ∧ pk.len = s ∧ pv.len = s ∧
        (∀ j, j < s →
          pk.val j = refK cfg bw.attention (refX cfg bw.attention_norm hRef) j) ∧
        (∀ j, j < s →
          pv.val j = refVd cfg bw.attention (refX cfg bw.attention_norm hRef) j))) :
    ∃ out kc vc,
      pico_block_forward cfg bw L hRun mask past useCache = some (out, (kc, vc)) ∧
      (∀ p, p < L → out p = refBlock cfg bw hRef (s + p)) ∧
      (useCache = true → ∃ kt vt, kc = some kt ∧ vc = some vt ∧
        kt.len = s + L ∧ vt.len = s + L ∧
        (∀ j, j < s + L →
          kt.val j = refK cfg bw.attention (refX cfg bw.attention_norm hRef) j) ∧
        (∀ j, j < s + L →
          vt.val j = refVd cfg bw.attention (refX cfg bw.attention_norm hRef) j)) ∧
      (useCache = false → kc = none ∧ vc = none) := by
  have hx : ∀ p, p < L →
      (fun q => rmsnorm_forward cfg.norm_eps cfg.d_model bw.attention_norm (hRun q)) p =
        refX cfg bw.attention_norm hRef (s + p) := by
    intro p hp
    show rmsnorm_forward cfg.norm_eps cfg.d_model bw.attention_norm (hRun p) = _
    rw [hh p hp]
    rfl
  obtain ⟨aout, kc, vc, heq, hout, hct, hcf⟩ :=
    attention_forward_ref cfg bw.attention L s
      (fun q => rmsnorm_forward cfg.norm_eps cfg.d_model bw.attention_norm (hRun q))
      (refX cfg bw.attention_norm hRef) mask past useCache h0 h2 hm hok hx hmask hpast
  unfold pico_block_forward
  rw [heq]
  refine ⟨_, kc, vc, rfl, ?_, hct, hcf⟩
  intro p hp
  have haf : aout p = refAttn cfg bw.attention (refX cfg bw.attention_norm hRef) (s + p) :=
    funext (hout p hp)
  funext c
  show (hRun p c + aout p c) +
      swiglu_forward cfg bw.swiglu
        (rmsnorm_forward cfg.norm_eps cfg.d_model bw.swiglu_norm
          (fun cc => hRun p cc + aout p cc)) c = _
  rw [hh p hp, haf]
  rfl

theorem run_layers_ref (cfg : ModelConfig) (ws : List BlockWeights) (L s : ℕ)
    (mask : Option (ℕ → ℕ → MaskVal)) (useCache : Bool) (hRun hRef : ℕ → ℕ → ℝ)
    (past : Option (List (Option KVT × Option KVT)))
    (h0 : 0 < L) (h2 : headDim cfg % 2 = 0) (hm : s + L ≤ cfg.max_seq_len)
    (hok : sdpaOk cfg)
    (hmask : ∀ i, i < L → ∀ j, j < s + L →
      maskAt mask i j = if j ≤ s + i then MaskVal.val 0 else MaskVal.negInf)
    (hh : ∀ p, p < L → hRun p = hRef (s + p))
    (hpast : (past = none ∧ s = 0) ∨ (∃ l, past = some l ∧ cacheRel cfg s ws l hRef)) :
    ∃ hOut caches,
      run_layers cfg L mask useCache ws past hRun = some (hOut, caches) ∧
      (∀ p, p < L → hOut p = refStack cfg ws hRef (s + p)) ∧
      caches.length = ws.length ∧
      (useCache = true → cacheRel cfg (s + L) ws caches hRef) ∧
      (useCache = false → ∀ e ∈ caches, e = ((none : Option KVT), (none : Option KVT))) := by
  induction ws generalizing hRun hRef past with
  | nil =>
      refine ⟨hRun, [], rfl, ?_, rfl, fun _ => trivial, fun _ _ he => absurd he (by simp)⟩
      intro p hp
      exact hh p hp
  | cons bw ws ih =>
      have hblock : (past = none ∧ s = 0) ∨ ∃ l', past = some l' ∧
          cacheRel cfg s (bw :: ws) l' hRef := hpast
      rcases hpast with ⟨hpn, hs⟩ | ⟨l, hpl, hrel⟩
      · subst hpn
        obtain ⟨bout, kc, vc, hbeq, hbout, hbct, hbcf⟩ :=
          block_forward_ref cfg bw L s hRun hRef mask none useCache h0 h2 hm hok hmask hh
            (Or.inl ⟨rfl, hs⟩)
        obtain ⟨hOut, caches, hreq, hrout, hrlen, hrct, hrcf⟩ :=
          ih bout (refBlock cfg bw hRef) none hbout (Or.inl ⟨rfl, hs⟩)
        refine ⟨hOut, (kc, vc) :: caches, ?_, ?_, ?_, ?_, ?_⟩
        · simp only [run_layers]
          rw [hbeq]
          simp only []
          rw [hreq]
        · intro p hp
          rw [hrout p hp]
          rfl
        · simp [hrlen]
        · intro hc
          obtain ⟨kt, vt, hkc, hvc, hktl, hvtl, hktv, hvtv⟩ := hbct hc
          exact ⟨kt, vt, caches, by rw [hkc, hvc], hktl, hvtl, hktv, hvtv, hrct hc⟩
        · intro hc e he
          rcases List.mem_cons.mp he with he1 | he2
          · obtain ⟨h1, h2⟩ := hbcf hc
            rw [he1, h1, h2]
          · exact hrcf hc e he2
      · subst hpl
        obtain ⟨pk, pv, rest, hl, hkl, hvl, hkv, hvv, hrest⟩ := hrel
        subst hl
        obtain ⟨bout, kc, vc, hbeq, hbout, hbct, hbcf⟩ :=
          block_forward_ref cfg bw L s hRun hRef mask (some (some pk, some pv)) useCache
            h0 h2 hm hok hmask hh (Or.inr ⟨pk, pv, rfl, hkl, hvl, hkv, hvv⟩)
        obtain ⟨hOut, caches, hreq, hrout, hrlen, hrct, hrcf⟩ :=
          ih bout (refBlock cfg bw hRef) (some rest) hbout (Or.inr ⟨rest, rfl, hrest⟩)
        refine ⟨hOut, (kc, vc) :: caches, ?_, ?_, ?_, ?_, ?_⟩
        · simp only [run_layers]
          rw [hbeq]
          simp only []
          rw [hreq]
        · intro p hp
          rw [hrout p hp]
          rfl
        · simp [hrlen]
        · intro hc
          obtain ⟨kt, vt, hkc, hvc, hktl, hvtl, hktv, hvtv⟩ := hbct hc
          exact ⟨kt, vt, caches, by rw [hkc, hvc], hktl, hvtl, hktv, hvtv, hrct hc⟩
        · intro hc e he
          rcases List.mem_cons.mp he with he1 | he2
          · obtain ⟨h1, h2⟩ := hbcf hc
            rw [he1, h1, h2]
          · exact hrcf hc e he2

theorem pico_forward_ref (cfg : ModelConfig) (w : PicoWeights) (L s : ℕ)
    (toks : ℕ → ℕ) (past : Option (List (Option KVT × Option KVT))) (useCache : Bool)
    (hRef : ℕ → ℕ → ℝ)
    (h0 : 0 < L) (h2 : headDim cfg % 2 = 0) (hm : s + L ≤ cfg.max_seq_len)
    (hok : sdpaOk cfg)
    (htoks : ∀ p, p < L → toks p < cfg.vocab_size)
    (hemb : ∀ p, p < L → w.embedding_proj (toks p) = hRef (s + p))
    (hpast : (past = none ∧ s = 0) ∨
      (∃ l bw ws, past = some l ∧ w.layers = bw :: ws ∧ cacheRel cfg s w.layers l hRef)) :
    ∃ logits cachesOpt,
      pico_forward cfg w L toks past useCache = some (logits, cachesOpt) ∧
      (∀ p, p < L → logits p = refLogitsH cfg w hRef (s + p)) ∧
      (useCache = true → ∃ caches, cachesOpt = some caches ∧
        caches.length = w.layers.length ∧ cacheRel cfg (s + L) w.layers caches hRef) ∧
      (useCache = false → cachesOpt = none) := by
  have hh : ∀ p, p < L →
      (fun q c => w.embedding_proj (toks q) c) p = hRef (s + p) := fun p hp =>
    hemb p hp
  rcases hpast with ⟨hpn, hs⟩ | ⟨l, bw, ws, hpl, hlay, hrel⟩
  · subst hpn
    subst hs
    have hmaskc : ∀ i, i < L → ∀ j, j < 0 + L →
        maskAt (buildMask L 0 (Option.isSome (none : Option (List (Option KVT × Option KVT))))) i j =
          if j ≤ 0 + i then MaskVal.val 0 else MaskVal.negInf := by
      intro i hi j hj
      exact maskAt_buildMask h0 (fun _ => rfl) hi hj
    obtain ⟨hOut, caches, hreq, hrout, hrlen, hrct, hrcf⟩ :=
      run_layers_ref cfg w.layers L 0 (buildMask L 0 false) useCache
        (fun q c => w.embedding_proj (toks q) c) hRef none h0 h2 hm hok hmaskc hh
        (Or.inl ⟨rfl, rfl⟩)
    unfold pico_forward
    rw [if_pos htoks]
    simp only [Option.isSome]
    rw [hreq]
    dsimp only
    cases useCache
    · rw [if_neg Bool.false_ne_true]
      refine ⟨_, _, rfl, ?_, fun hcon => Bool.noConfusion hcon, fun _ => rfl⟩
      intro p hp
      funext v
      show linear w.de_embedding_proj cfg.d_model
        (rmsnorm_forward cfg.norm_eps cfg.d_model w.output_norm (hOut p)) v = _
      rw [hrout p hp]
      rfl
    · rw [if_pos rfl]
      refine ⟨_, _, rfl, ?_, fun _ => ⟨caches, rfl, hrlen, hrct rfl⟩,
        fun hcon => Bool.noConfusion hcon⟩
      intro p hp
      funext v
      show linear w.de_embedding_proj cfg.d_model
        (rmsnorm_forward cfg.norm_eps cfg.d_model w.output_norm (hOut p)) v = _
      rw [hrout p hp]
      rfl
  · subst hpl
    have hrel' := hrel
    rw [hlay] at hrel'
    obtain ⟨pk, pv, rest, hl, hkl, hvl, hkv, hvv, hrest⟩ := hrel'
    subst hl
    have hmaskc : ∀ i, i < L → ∀ j, j < s + L →
        maskAt (buildMask L pk.len
          (Option.isSome (some (((some pk, some pv)) :: rest)))) i j =
          if j ≤ s + i then MaskVal.val 0 else MaskVal.negInf := by
      intro i hi j hj
      rw [hkl]
      exact maskAt_buildMask h0 (fun hcon => Bool.noConfusion hcon) hi hj
    obtain ⟨hOut, caches, hreq, hrout, hrlen, hrct, hrcf⟩ :=
      run_layers_ref cfg w.layers L s (buildMask L pk.len true) useCache
        (fun q c => w.embedding_proj (toks q) c) hRef (some ((some pk, some pv) :: rest))
        h0 h2 hm hok (by simpa using hmaskc) hh (Or.inr ⟨_, rfl, hrel⟩)
    unfold pico_forward
    rw [if_pos htoks]
    simp only [Option.isSome]
    rw [hreq]
    dsimp only
    cases useCache
    · rw [if_neg Bool.false_ne_true]
      refine ⟨_, _, rfl, ?_, fun hcon => Bool.noConfusion hcon, fun _ => rfl⟩
      intro p hp
      funext v
      show linear w.de_embedding_proj cfg.d_model
        (rmsnorm_forward cfg.norm_eps cfg.d_model w.output_norm (hOut p)) v = _
      rw [hrout p hp]
      rfl
    · rw [if_pos rfl]
      refine ⟨_, _, rfl, ?_, fun _ => ⟨caches, rfl, hrlen, hrct rfl⟩,
        fun hcon => Bool.noConfusion hcon⟩
      intro p hp
      funext v
      show linear w.de_embedding_proj cfg.d_model
        (rmsnorm_forward cfg.norm_eps cfg.d_model w.output_norm (hOut p)) v = _
      rw [hrout p hp]
      rfl

theorem refAttn_causal (cfg : ModelConfig) (aw : AttentionWeights)
    {X1 X2 : ℕ → ℕ → ℝ} {a : ℕ} (hX : ∀ j, j ≤ a → X1 j = X2 j) (c : ℕ) :
    refAttn cfg aw X1 a c = refAttn cfg aw X2 a c := by
  have hq : refQ cfg aw X1 a = refQ cfg aw X2 a := by
    funext hh cc
    simp only [refQ, rotate, qProj, hX a le_rfl]
  have hk : ∀ j, j ≤ a → refK cfg aw X1 j = refK cfg aw X2 j := by
    intro j hj
    funext hh cc
    simp only [refK, rotate, qProj, hX j hj]
  have hv : ∀ j, j ≤ a → refVd cfg aw X1 j = refVd cfg aw X2 j := by
    intro j hj
    funext hh cc
    simp only [refVd, qProj, hX j hj]
  have hsw : ∀ j, j ≤ a → ∀ qh, refSW cfg aw X1 a j qh = refSW cfg aw X2 a j qh := by
    intro j hj qh
    unfold refSW
    rw [hq, hk j hj]
  unfold refAttn linear
  refine Finset.sum_congr rfl fun cc _ => ?_
  unfold mergeHeads refHeadOut
  have hle : ∀ j ∈ Finset.range (a + 1), j ≤ a := fun j hj =>
    Nat.lt_succ_iff.mp (Finset.mem_range.mp hj)
  rw [Finset.sum_congr rfl (fun j hj => by rw [hsw j (hle j hj), hv j (hle j hj)]),
    Finset.sum_congr rfl (fun j hj => hsw j (hle j hj) _)]

theorem refBlock_causal (cfg : ModelConfig) (bw : BlockWeights)
    {h1 h2 : ℕ → ℕ → ℝ} {a : ℕ} (hagree : ∀ p, p ≤ a → h1 p = h2 p) :
    ∀ p, p ≤ a → refBlock cfg bw h1 p = refBlock cfg bw h2 p := by
  have hX : ∀ j, j ≤ a →
      refX cfg bw.attention_norm h1 j = refX cfg bw.attention_norm h2 j := by
    intro j hj
    unfold refX
    rw [hagree j hj]
  have hBH : ∀ p, p ≤ a → refBlockH cfg bw h1 p = refBlockH cfg bw h2 p := by
    intro p hp
    funext c
    unfold refBlockH
    rw [hagree p hp, refAttn_causal cfg bw.attention (fun j hj => hX j (le_trans hj hp)) c]
  intro p hp
  funext c
  unfold refBlock
  rw [hBH p hp]

theorem refStack_causal (cfg : ModelConfig) (ws : List BlockWeights)
    {h1 h2 : ℕ → ℕ → ℝ} {a : ℕ} (hagree : ∀ p, p ≤ a → h1 p = h2 p) :
    ∀ p, p ≤ a → refStack cfg ws h1 p = refStack cfg ws h2 p := by
  induction ws generalizing h1 h2 with
  | nil => exact hagree
  | cons bw ws ih =>
      intro p hp
      simp only [refStack]
      exact ih (refBlock_causal cfg bw hagree) p hp

theorem refLogitsH_causal (cfg : ModelConfig) (w : PicoWeights)
    {h1 h2 : ℕ → ℕ → ℝ} {a : ℕ} (hagree : ∀ p, p ≤ a → h1 p = h2 p) :
    refLogitsH cfg w h1 a = refLogitsH cfg w h2 a := by
  funext v
  unfold refLogitsH
  rw [refStack_causal cfg w.layers hagree a le_rfl]

theorem sdpaOk_of (cfg : ModelConfig) (hh : 0 < cfg.attention_n_heads)
    (hkv : 0 < cfg.attention_n_kv_heads)
    (hdvd : cfg.attention_n_kv_heads ∣ cfg.attention_n_heads) : sdpaOk cfg := by
  obtain ⟨k, hk⟩ := hdvd
  rcases Nat.lt_or_ge k 2 with hk2 | hk2
  · left
    have hk1 : k = 1 := by
      rcases Nat.eq_zero_or_pos k with h0 | h1
      · subst h0
        simp only [Nat.mul_zero] at hk
        omega
      · omega
    subst hk1
    omega
  · right
    constructor
    · unfold nRepF
      rw [hk, Nat.mul_div_cancel_left _ hkv]
      omega
    · rw [hk]
      exact Nat.mul_mod_right _ _

theorem block_forward_none_lens (cfg : ModelConfig) (bw : BlockWeights) (L : ℕ)
    (input : ℕ → ℕ → ℝ) (mask : Option (ℕ → ℕ → MaskVal))
    (h0 : 0 < L) (h2 : headDim cfg % 2 = 0) (hm : L ≤ cfg.max_seq_len)
    (hok : sdpaOk cfg) :
    ∃ out kt vt,
      pico_block_forward cfg bw L input mask none true = some (out, (some kt, some vt)) ∧
      kt.len = 0 + L ∧ vt.len = 0 + L := by
  unfold pico_block_forward
  simp only [attention_forward]
  rw [attention_main_none_eq cfg bw.attention L _ mask true h0 h2 hm hok, if_pos rfl]
  exact ⟨_, _, _, rfl, rfl, rfl⟩

theorem block_forward_some_lens (cfg : ModelConfig) (bw : BlockWeights) (L : ℕ)
    (input : ℕ → ℕ → ℝ) (mask : Option (ℕ → ℕ → MaskVal)) (pk pv : KVT)
    (h0 : 0 < L) (h2 : headDim cfg % 2 = 0) (hm : pk.len + L ≤ cfg.max_seq_len)
    (hok : sdpaOk cfg) (hvl : pv.len = pk.len) :
    ∃ out kt vt,
      pico_block_forward cfg bw L input mask (some (some pk, some pv)) true =
        some (out, (some kt, some vt)) ∧
      kt.len = pk.len + L ∧ vt.len = pk.len + L := by
  unfold pico_block_forward
  simp only [attention_forward]
  rw [attention_main_some_eq cfg bw.attention L _ mask pk pv true h0 h2 hm hok hvl,
    if_pos rfl]
  exact ⟨_, _, _, rfl, rfl, by rw [hvl]⟩

theorem run_layers_lens (cfg : ModelConfig) (ws : List BlockWeights) (L s : ℕ)
    (mask : Option (ℕ → ℕ → MaskVal)) (h : ℕ → ℕ → ℝ)
    (past : Option (List (Option KVT × Option KVT)))
    (h0 : 0 < L) (h2 : headDim cfg % 2 = 0) (hm : s + L ≤ cfg.max_seq_len)
    (hok : sdpaOk cfg)
    (hpast : (past = none ∧ s = 0) ∨ (∃ l, past = some l ∧ ws.length ≤ l.length ∧
      ∀ e ∈ l, ∃ kt vt, e = (some kt, some vt) ∧ kt.len = s ∧ vt.len = s)) :
    ∃ hOut caches,
      run_layers cfg L mask true ws past h = some (hOut, caches) ∧
      caches.length = ws.length ∧
      ∀ e ∈ caches, ∃ kt vt, e = (some kt, some vt) ∧
        kt.len = s + L ∧ vt.len = s + L := by
  induction ws generalizing h past with
  | nil =>
      exact ⟨h, [], rfl, rfl, fun e he => absurd he (by simp)⟩
  | cons bw ws ih =>
      rcases hpast with ⟨hpn, hs⟩ | ⟨l, hpl, hlen, hall⟩
      · subst hpn
        subst hs
        obtain ⟨out, kt, vt, hbeq, hktl, hvtl⟩ :=
          block_forward_none_lens cfg bw L h mask h0 h2 (by omega) hok
        obtain ⟨hOut, caches, hreq, hrlen, hrall⟩ := ih out none (Or.inl ⟨rfl, rfl⟩)
        refine ⟨hOut, (some kt, some vt) :: caches, ?_, by simp [hrlen], ?_⟩
        · simp only [run_layers]
          rw [hbeq]
          simp only []
          rw [hreq]
        · intro e he
          rcases List.mem_cons.mp he with he1 | he2
          · exact ⟨kt, vt, he1, hktl, hvtl⟩
          · exact hrall e he2
      · subst hpl
        match l, hlen with
        | e0 :: rest, hlen =>
          obtain ⟨pk, pv, he0, hkl, hvl⟩ := hall e0 (List.mem_cons_self e0 rest)
          subst he0
          obtain ⟨out, kt, vt, hbeq, hktl, hvtl⟩ :=
            block_forward_some_lens cfg bw L h mask pk pv h0 h2 (by omega) hok
              (by omega)
          obtain ⟨hOut, caches, hreq, hrlen, hrall⟩ := ih out (some rest)
            (Or.inr ⟨rest, rfl, by simpa using hlen,
              fun e he => hall e (List.mem_cons_of_mem _ he)⟩)
          refine ⟨hOut, (some kt, some vt) :: caches, ?_, by simp [hrlen], ?_⟩
          · simp only [run_layers]
            rw [hbeq]
            simp only []
            rw [hreq]
          · intro e he
            rcases List.mem_cons.mp he with he1 | he2
            · refine ⟨kt, vt, he1, ?_, ?_⟩
              · omega
              · omega
            · exact hrall e he2

/-! # Claim theorems -/

/-- C2: causal masking as noninterference.  With fixed weights, no past cache
and `useCache = false`, two token sequences of the same length `L` that agree
at every position `≤ t` produce identical logits (every vocabulary channel) at
position `t`: the logits at `t` are invariant to changes of the input tokens
at positions `> t`. -/
theorem claim_C2_causal_noninterference (cfg : ModelConfig) (w : PicoWeights)
    (L t : ℕ) (toks1 toks2 : ℕ → ℕ)
    (hhead : 0 < cfg.attention_n_heads) (hkv : 0 < cfg.attention_n_kv_heads)
    (hdvd : cfg.attention_n_kv_heads ∣ cfg.attention_n_heads)
    (h2 : headDim cfg % 2 = 0)
    (hm : L ≤ cfg.max_seq_len) (ht : t < L)
    (htoks1 : ∀ p, p < L → toks1 p < cfg.vocab_size)
    (htoks2 : ∀ p, p < L → toks2 p < cfg.vocab_size)
    (hagree : ∀ p, p ≤ t → toks1 p = toks2 p) :
    ∃ l1 l2,
      pico_forward cfg w L toks1 none false = some (l1, none) ∧
      pico_forward cfg w L toks2 none false = some (l2, none) ∧
      l1 t = l2 t := by
  have hok := sdpaOk_of cfg hhead hkv hdvd
  obtain ⟨l1, c1, he1, hl1, _, hcf1⟩ :=
    pico_forward_ref cfg w L 0 toks1 none false
      (fun a c => w.embedding_proj (toks1 a) c) (by omega) h2 (by omega) hok htoks1
      (fun p _ => funext fun c => by rw [Nat.zero_add]) (Or.inl ⟨rfl, rfl⟩)
  obtain ⟨l2, c2, he2, hl2, _, hcf2⟩ :=
    pico_forward_ref cfg w L 0 toks2 none false
      (fun a c => w.embedding_proj (toks2 a) c) (by omega) h2 (by omega) hok htoks2
      (fun p _ => funext fun c => by rw [Nat.zero_add]) (Or.inl ⟨rfl, rfl⟩)
  rw [hcf1 rfl] at he1
  rw [hcf2 rfl] at he2
  refine ⟨l1, l2, he1, he2, ?_⟩
  rw [hl1 t ht, hl2 t ht]
  exact refLogitsH_causal cfg w
    (fun p hp => funext fun c => by rw [hagree p (by omega)])

/-- C1: cache equivalence.  For a token sequence of length `L`, a split point
`0 < k < L` and fixed weights, running the first `k` tokens with
`useCache = true` and then the remaining `L - k` tokens with the returned
model cache yields, at every suffix position, exactly the logits of the
single full-length forward call at the same absolute position. -/
theorem claim_C1_cache_equivalence (cfg : ModelConfig) (w : PicoWeights)
    (L k : ℕ) (toks : ℕ → ℕ)
    (hhead : 0 < cfg.attention_n_heads) (hkv : 0 < cfg.attention_n_kv_heads)
    (hdvd : cfg.attention_n_kv_heads ∣ cfg.attention_n_heads)
    (h2 : headDim cfg % 2 = 0) (hm : L ≤ cfg.max_seq_len)
    (hk0 : 0 < k) (hkL : k < L)
    (hlay : w.layers ≠ [])
    (htoks : ∀ p, p < L → toks p < cfg.vocab_size) :
    ∃ lf cf lp cs ls cs2,
      pico_forward cfg w L toks none false = some (lf, cf) ∧
      pico_forward cfg w k toks none true = some (lp, some cs) ∧
      pico_forward cfg w (L - k) (fun p => toks (k + p)) (some cs) false =
        some (ls, cs2) ∧
      ∀ p, p < L - k → ls p = lf (k + p) := by
  have hok := sdpaOk_of cfg hhead hkv hdvd
  obtain ⟨lf, cf, hef, hlf, _, _⟩ :=
    pico_forward_ref cfg w L 0 toks none false
      (fun a c => w.embedding_proj (toks a) c) (by omega) h2 (by omega) hok htoks
      (fun p _ => funext fun c => by rw [Nat.zero_add]) (Or.inl ⟨rfl, rfl⟩)
  obtain ⟨lp, cpo, hep, _, hct, _⟩ :=
    pico_forward_ref cfg w k 0 toks none true
      (fun a c => w.embedding_proj (toks a) c) (by omega) h2 (by omega) hok
      (fun p hp => htoks p (by omega))
      (fun p _ => funext fun c => by rw [Nat.zero_add]) (Or.inl ⟨rfl, rfl⟩)
  obtain ⟨cs, hcpo, _, hcsrel⟩ := hct rfl
  rw [hcpo] at hep
  rw [Nat.zero_add] at hcsrel
  obtain ⟨bw, ws, hlayeq⟩ := List.exists_cons_of_ne_nil hlay
  obtain ⟨ls, cs2, hes, hls, _, _⟩ :=
    pico_forward_ref cfg w (L - k) k (fun p => toks (k + p)) (some cs) false
      (fun a c => w.embedding_proj (toks a) c) (by omega) h2 (by omega) hok
      (fun p hp => htoks (k + p) (by omega))
      (fun p _ => rfl) (Or.inr ⟨cs, bw, ws, rfl, hlayeq, hcsrel⟩)
  refine ⟨lf, cf, lp, cs, ls, cs2, hef, hep, hes, ?_⟩
  intro p hp
  rw [hls p hp]
  have := hlf (k + p) (by omega)
  rw [Nat.zero_add] at this
  rw [this]

/-- C3 counterexample: with `attention_n_heads = 3`, `attention_n_kv_heads = 2`
(a non-integral grouped-query ratio), `Attention.__init__` succeeds — there is
no divisibility check at construction, contrary to the claim that construction
fails. -/
theorem claim_C3_counterexample :
    cfgB.attention_n_heads % cfgB.attention_n_kv_heads ≠ 0 ∧
    (attention_init cfgB).isSome = true := by
  exact ⟨by decide, by decide⟩

/-- C3 (amended): `Attention.__init__` performs no divisibility check: for
every configuration with nonzero head counts — integral grouped-query ratio
or not — construction succeeds, returning `head_dim` and `n_rep` by floor
division. -/
theorem claim_C3_init_total (cfg : ModelConfig)
    (hh : cfg.attention_n_heads ≠ 0) (hkv : cfg.attention_n_kv_heads ≠ 0) :
    attention_init cfg = some (headDim cfg, nRepF cfg) := by
  unfold attention_init
  exact if_neg fun hor => hor.elim hh hkv

/-- C3 witness: the amended statement applied to the non-integral-ratio
configuration. -/
theorem claim_C3_witness :
    cfgB.attention_n_heads ≠ 0 ∧ cfgB.attention_n_kv_heads ≠ 0 ∧
    attention_init cfgB = some (headDim cfgB, nRepF cfgB) :=
  ⟨by decide, by decide, claim_C3_init_total cfgB (by decide) (by decide)⟩

/-- C5 counterexample: two in-range calls (`start_pos ≥ 0`,
`start_pos + seqLen ≤ max_seq_len`) on which `RoPE.forward` nevertheless
fails, contrary to the claim's success direction: a zero-length input (the
`reshape(..., -1, 2)` of a zero-element tensor is ambiguous) and an odd head
dimension (the same reshape needs an even last axis). -/
theorem claim_C5_counterexample :
    ((0 : ℕ) + 0 ≤ 4 ∧ (rope_forward 1 2 4 0 zero3 zero3 0).isSome = false) ∧
    ((0 : ℕ) + 2 ≤ 4 ∧ (rope_forward 1 3 4 2 zero3 zero3 0).isSome = false) := by
  exact ⟨⟨by decide, rfl⟩, ⟨by decide, rfl⟩⟩

/-- C5 (amended): every call with `start_pos + seqLen > max_seq_len` fails;
every call with `seqLen ≥ 1`, an even head dimension and
`start_pos + seqLen ≤ max_seq_len` succeeds and returns the rotated queries
and keys. -/
theorem claim_C5_rope_contract (θ : ℝ) (d maxL L s : ℕ) (q k : ℕ → ℕ → ℕ → ℝ) :
    (maxL < s + L → rope_forward θ d maxL L q k s = none) ∧
    (0 < L → d % 2 = 0 → s + L ≤ maxL →
      rope_forward θ d maxL L q k s = some (rotate θ d s q, rotate θ d s k)) :=
  ⟨fun hm => rope_forward_oob q k hm,
   fun h0 h2 hm => rope_forward_some q k h0 h2 hm⟩

/-- C5 witness: the amended contract applied at `max_seq_len = 4` to an
out-of-range call (`start_pos = 3`, `seqLen = 2`) and an in-range call
(`start_pos = 1`, `seqLen = 2`, head dimension 2). -/
theorem claim_C5_witness :
    rope_forward 1 2 4 2 zero3 zero3 3 = none ∧
    rope_forward 1 2 4 2 zero3 zero3 1 =
      some (rotate 1 2 1 zero3, rotate 1 2 1 zero3) :=
  ⟨(claim_C5_rope_contract 1 2 4 2 3 zero3 zero3).1 (by decide),
   (claim_C5_rope_contract 1 2 4 2 1 zero3 zero3).2 (by decide) (by decide) (by decide)⟩

/-- C6: config round trip.  `from_dataclass` applies every entry of
`asdict(c)` as an attribute, so every §3 field reads back exactly; and an
extra entry appended to the input mapping of `from_dict` is passed through
(set as an attribute) without error. -/
theorem claim_C6_config_roundtrip (base : String → Option CfgVal) (c : ModelConfig)
    (d : List (String × CfgVal)) (key : String) (v : CfgVal) :
    pico_hf_config_from_dataclass base c "d_model" = some (CfgVal.nat c.d_model) ∧
    pico_hf_config_from_dataclass base c "n_layers" = some (CfgVal.nat c.n_layers) ∧
    pico_hf_config_from_dataclass base c "attention_n_heads" =
      some (CfgVal.nat c.attention_n_heads) ∧
    pico_hf_config_from_dataclass base c "attention_n_kv_heads" =
      some (CfgVal.nat c.attention_n_kv_heads) ∧
    pico_hf_config_from_dataclass base c "max_seq_len" =
      some (CfgVal.nat c.max_seq_len) ∧
    pico_hf_config_from_dataclass base c "vocab_size" =
      some (CfgVal.nat c.vocab_size) ∧
    pico_hf_config_from_dataclass base c "norm_eps" =
      some (CfgVal.real c.norm_eps) ∧
    pico_hf_config_from_dataclass base c "position_emb_theta" =
      some (CfgVal.real c.position_emb_theta) ∧
    pico_hf_config_from_dataclass base c "activation_hidden_dim" =
      some (CfgVal.nat c.activation_hidden_dim) ∧
    pico_hf_config_from_dataclass base c "batch_size" =
      some (CfgVal.nat c.batch_size) ∧
    pico_hf_config_from_dict base (d ++ [(key, v)]) key = some v := by
  refine ⟨?_, ?_, ?_, ?_, ?_, ?_, ?_, ?_, ?_, ?_, ?_⟩ <;>
    simp [pico_hf_config_from_dataclass, pico_hf_config_from_dict, asdictC,
      setattrC, List.foldl_append]

/-- C7: mask construction.  When `seqLen > 1`, the mask's first `start_pos`
columns are zero bias and its trailing `(seqLen, seqLen)` block is `-inf`
strictly above the main diagonal and zero on and below it; when `seqLen = 1`
no mask is built.  (`start_pos = 0` whenever no past cache is supplied, which
is the `hwire` wiring hypothesis of `Pico.forward`.) -/
theorem claim_C7_mask_shape (L s : ℕ) (hp : Bool) (hwire : hp = false → s = 0) :
    (1 < L → ∃ m, buildMask L s hp = some m ∧
      (∀ i, i < L → ∀ j, j < s → m i j = MaskVal.val 0) ∧
      (∀ i, i < L → ∀ j, j < L → m i (s + j) =
        if i < j then MaskVal.negInf else MaskVal.val 0)) ∧
    (L = 1 → buildMask L s hp = none) := by
  constructor
  · intro hL
    cases hp
    · have hs : s = 0 := hwire rfl
      subst hs
      refine ⟨fun i j => maskTriu i j, by simp only [buildMask, if_pos hL], ?_, ?_⟩
      · intro i _ j hj
        omega
      · intro i _ j _
        show maskTriu i (0 + j) = _
        rw [Nat.zero_add]
        unfold maskTriu
        split_ifs <;> first | rfl | omega
    · refine ⟨fun i j => if j < s then MaskVal.val 0 else maskTriu i (j - s),
        by simp only [buildMask, if_pos hL], ?_, ?_⟩
      · intro i _ j hj
        show (if j < s then MaskVal.val 0 else maskTriu i (j - s)) = MaskVal.val 0
        rw [if_pos hj]
      · intro i _ j _
        show (if s + j < s then MaskVal.val 0 else maskTriu i (s + j - s)) = _
        rw [if_neg (by omega), Nat.add_sub_cancel_left]
        unfold maskTriu
        split_ifs <;> first | rfl | omega
  · intro hL1
    subst hL1
    simp only [buildMask, if_neg (by omega : ¬ (1 : ℕ) < 1)]

/-- C7 witness: mask shape at `seqLen = 3`, `start_pos = 2` with a past cache,
and the no-mask case at `seqLen = 1`. -/
theorem claim_C7_witness :
    ((1 < 3 → ∃ m, buildMask 3 2 true = some m ∧
      (∀ i, i < 3 → ∀ j, j < 2 → m i j = MaskVal.val 0) ∧
      (∀ i, i < 3 → ∀ j, j < 3 → m i (2 + j) =
        if i < j then MaskVal.negInf else MaskVal.val 0)) ∧
     (3 = 1 → buildMask 3 2 true = none)) ∧
    ((1 < 1 → ∃ m, buildMask 1 0 false = some m ∧
      (∀ i, i < 1 → ∀ j, j < 0 → m i j = MaskVal.val 0) ∧
      (∀ i, i < 1 → ∀ j, j < 1 → m i (0 + j) =
        if i < j then MaskVal.negInf else MaskVal.val 0)) ∧
     (1 = 1 → buildMask 1 0 false = none)) :=
  ⟨claim_C7_mask_shape 3 2 true (fun h => Bool.noConfusion h),
   claim_C7_mask_shape 1 0 false (fun _ => rfl)⟩

/-- C9: the Normalizer postcondition.  `RMSNorm.forward` computes
`x * rsqrt(mean(x^2, last_axis) + eps) * weight` channelwise (same shape),
and with the weight at its initial all-ones value it is exactly the RMS
normalization `_norm` of the input.  (The "wider precision" of the mean and
`rsqrt` — `x.float()` then `type_as(x)` before the `weight` scaling — is the
identity in this exact-real model.) -/
theorem claim_C9_rmsnorm_contract (eps : ℝ) (d : ℕ) (weight x : ℕ → ℝ) (c : ℕ) :
    rmsnorm_forward eps d weight x c =
      x c * (Real.sqrt ((∑ i in Finset.range d, x i ^ 2) / (d : ℝ) + eps))⁻¹ *
        weight c ∧
    rmsnorm_forward eps d onesWeight x c = rmsnorm_norm eps d x c := by
  refine ⟨rfl, ?_⟩
  show rmsnorm_norm eps d x c * 1 = rmsnorm_norm eps d x c
  rw [mul_one]

/-- C4 counterexample: with `use_cache = false`, `Attention.forward` returns
its cache component as the pair `(None, None)` — a pair of nulls, not an
absent value, contrary to the claim's `newCache = absent`. -/
theorem claim_C4_counterexample :
    attnCachePart (attention_forward cfgA zeroAW 1 zero2 none none false) =
      some (none, none) := by
  rfl

/-- C4 (amended): with `use_cache = false` the attention block returns the
cache slot as the pair `(None, None)` (not an absent value); the portable
wrapper `PicoHF.forward`, however, does return an output whose cache field is
present exactly when `useCache` is true (`CausalLMOutputWithPast` vs
`CausalLMOutput`). -/
theorem claim_C4_cache_presence (cfg : ModelConfig) (w : PicoWeights)
    (aw : AttentionWeights) (L : ℕ) (x : ℕ → ℕ → ℝ)
    (mask : Option (ℕ → ℕ → MaskVal)) (toks : ℕ → ℕ)
    (hhead : 0 < cfg.attention_n_heads) (hkv : 0 < cfg.attention_n_kv_heads)
    (hdvd : cfg.attention_n_kv_heads ∣ cfg.attention_n_heads)
    (h0 : 0 < L) (h2 : headDim cfg % 2 = 0) (hm : L ≤ cfg.max_seq_len)
    (htoks : ∀ p, p < L → toks p < cfg.vocab_size) :
    (∃ out, attention_forward cfg aw L x mask none false = some (out, (none, none))) ∧
    (∃ l, pico_hf_forward cfg w L toks none false = some (HFOutput.noPast l)) ∧
    (∃ l cs, pico_hf_forward cfg w L toks none true =
      some (HFOutput.withPast l (some cs))) := by
  have hok := sdpaOk_of cfg hhead hkv hdvd
  refine ⟨?_, ?_, ?_⟩
  · simp only [attention_forward]
    rw [attention_main_none_eq cfg aw L x mask false h0 h2 hm hok,
      if_neg Bool.false_ne_true]
    exact ⟨_, rfl⟩
  · obtain ⟨l, co, he, _, _, hcf⟩ :=
      pico_forward_ref cfg w L 0 toks none false
        (fun a c => w.embedding_proj (toks a) c) h0 h2 (by omega) hok htoks
        (fun p _ => funext fun c => by rw [Nat.zero_add]) (Or.inl ⟨rfl, rfl⟩)
    rw [hcf rfl] at he
    refine ⟨l, ?_⟩
    unfold pico_hf_forward
    rw [he]
    dsimp only
    rw [if_neg Bool.false_ne_true]
  · obtain ⟨l, co, he, _, hct, _⟩ :=
      pico_forward_ref cfg w L 0 toks none true
        (fun a c => w.embedding_proj (toks a) c) h0 h2 (by omega) hok htoks
        (fun p _ => funext fun c => by rw [Nat.zero_add]) (Or.inl ⟨rfl, rfl⟩)
    obtain ⟨cs, hco, _, _⟩ := hct rfl
    rw [hco] at he
    refine ⟨l, cs, ?_⟩
    unfold pico_hf_forward
    rw [he]
    dsimp only
    rw [if_pos rfl]

/-- C4 witness: the amended statement at a concrete one-token input. -/
theorem claim_C4_witness :
    (∃ out, attention_forward cfgA zeroAW 1 zero2 none none false =
      some (out, (none, none))) ∧
    (∃ l, pico_hf_forward cfgA zeroPW 1 tok0 none false = some (HFOutput.noPast l)) ∧
    (∃ l cs, pico_hf_forward cfgA zeroPW 1 tok0 none true =
      some (HFOutput.withPast l (some cs))) :=
  claim_C4_cache_presence cfgA zeroPW zeroAW 1 zero2 none tok0
    (by decide) (by decide) (by decide) (by decide) (by decide) (by decide)
    (by decide)

/-- C10: cache content.  With `use_cache = true` and a supplied past cache of
length `s`, the returned cached keys are the past keys (positions `< s`,
passed through unchanged — never re-rotated) followed by the freshly
projected keys rotated at start position `s` (so new position `p` is rotated
at absolute position `s + p`); the returned cached values are the past values
followed by the raw value projections, with no rotation ever applied. -/
theorem claim_C10_cache_rotation (cfg : ModelConfig) (aw : AttentionWeights)
    (L : ℕ) (input : ℕ → ℕ → ℝ) (mask : Option (ℕ → ℕ → MaskVal)) (pk pv : KVT)
    (h0 : 0 < L) (h2 : headDim cfg % 2 = 0) (hm : pk.len + L ≤ cfg.max_seq_len)
    (hok : sdpaOk cfg) (hvl : pv.len = pk.len) :
    ∃ out kt vt,
      attention_forward cfg aw L input mask (some (some pk, some pv)) true =
        some (out, (some kt, some vt)) ∧
      kt.len = pk.len + L ∧ vt.len = pv.len + L ∧
      (∀ j, j < pk.len → kt.val j = pk.val j) ∧
      (∀ p, p < L → kt.val (pk.len + p) =
        rotate cfg.position_emb_theta (headDim cfg) pk.len (qProj cfg aw.k_proj input) p) ∧
      (∀ j, j < pv.len → vt.val j = pv.val j) ∧
      (∀ p, p < L → vt.val (pv.len + p) = qProj cfg aw.v_proj input p) := by
  simp only [attention_forward]
  rw [attention_main_some_eq cfg aw L input mask pk pv true h0 h2 hm hok hvl,
    if_pos rfl]
  refine ⟨_, _, _, rfl, rfl, rfl, ?_, ?_, ?_, ?_⟩
  · intro j hj
    exact concatKV_lt hj
  · intro p _
    show concatKV pk.len pk.val
      (rotate cfg.position_emb_theta (headDim cfg) pk.len (qProj cfg aw.k_proj input))
      (pk.len + p) = _
    rw [concatKV_ge (Nat.le_add_right _ _), Nat.add_sub_cancel_left]
  · intro j hj
    exact concatKV_lt hj
  · intro p _
    show concatKV pv.len pv.val (qProj cfg aw.v_proj input) (pv.len + p) = _
    rw [concatKV_ge (Nat.le_add_right _ _), Nat.add_sub_cancel_left]

/-- C10 witness: a concrete cached decode step (past length 2, one new
token). -/
theorem claim_C10_witness :
    (0 : ℕ) < 1 ∧ headDim cfgA % 2 = 0 ∧
    (2 : ℕ) + 1 ≤ cfgA.max_seq_len ∧ sdpaOk cfgA ∧
    (∃ out kt vt,
      attention_forward cfgA zeroAW 1 zero2 none
          (some (some ⟨2, zero3⟩, some ⟨2, zero3⟩)) true =
        some (out, (some kt, some vt)) ∧
      kt.len = (⟨2, zero3⟩ : KVT).len + 1 ∧ vt.len = (⟨2, zero3⟩ : KVT).len + 1 ∧
      (∀ j, j < (⟨2, zero3⟩ : KVT).len → kt.val j = (⟨2, zero3⟩ : KVT).val j) ∧
      (∀ p, p < 1 → kt.val ((⟨2, zero3⟩ : KVT).len + p) =
        rotate cfgA.position_emb_theta (headDim cfgA) (⟨2, zero3⟩ : KVT).len
          (qProj cfgA zeroAW.k_proj zero2) p) ∧
      (∀ j, j < (⟨2, zero3⟩ : KVT).len → vt.val j = (⟨2, zero3⟩ : KVT).val j) ∧
      (∀ p, p < 1 → vt.val ((⟨2, zero3⟩ : KVT).len + p) =
        qProj cfgA zeroAW.v_proj zero2 p)) :=
  ⟨by decide, by decide, by decide, by decide,
   claim_C10_cache_rotation cfgA zeroAW 1 zero2 none ⟨2, zero3⟩ ⟨2, zero3⟩
     (by decide) (by decide) (by decide) (by decide) rfl⟩

/-- C8: the model-cache layer invariant.  For a `useCache = true` forward
call whose supplied cache is absent or has one well-formed entry of
accumulated length `start_pos` per layer, the call succeeds and returns a
cache with exactly `n_layers` entries, each holding present key/value tensors
of accumulated length `start_pos + seqLen`. -/
theorem claim_C8_cache_layers (cfg : ModelConfig) (w : PicoWeights)
    (L s : ℕ) (toks : ℕ → ℕ) (past : Option (List (Option KVT × Option KVT)))
    (hhead : 0 < cfg.attention_n_heads) (hkv : 0 < cfg.attention_n_kv_heads)
    (hdvd : cfg.attention_n_kv_heads ∣ cfg.attention_n_heads)
    (h0 : 0 < L) (h2 : headDim cfg % 2 = 0) (hm : s + L ≤ cfg.max_seq_len)
    (htoks : ∀ p, p < L → toks p < cfg.vocab_size)
    (hlayn : w.layers.length = cfg.n_layers)
    (hpast : (past = none ∧ s = 0) ∨
      (∃ l, past = some l ∧ l.length = cfg.n_layers ∧ 0 < l.length ∧
        ∀ e ∈ l, ∃ kt vt, e = (some kt, some vt) ∧ kt.len = s ∧ vt.len = s)) :
    ∃ logits caches,
      pico_forward cfg w L toks past true = some (logits, some caches) ∧
      caches.length = cfg.n_layers ∧
      ∀ e ∈ caches, ∃ kt vt, e = (some kt, some vt) ∧
        kt.len = s + L ∧ vt.len = s + L := by
  have hok := sdpaOk_of cfg hhead hkv hdvd
  rcases hpast with ⟨hpn, hs⟩ | ⟨l, hpl, hlen, hpos, hall⟩
  · subst hpn
    subst hs
    obtain ⟨hOut, caches, hreq, hrlen, hrall⟩ :=
      run_layers_lens cfg w.layers L 0 (buildMask L 0 false)
        (fun p c => w.embedding_proj (toks p) c) none h0 h2 hm hok
        (Or.inl ⟨rfl, rfl⟩)
    unfold pico_forward
    rw [if_pos htoks]
    simp only [Option.isSome]
    rw [hreq]
    dsimp only
    exact ⟨_, caches, rfl, by rw [hrlen, hlayn], hrall⟩
  · subst hpl
    match l, hlen, hpos, hall with
    | e0 :: rest, hlen, _, hall =>
      obtain ⟨pk, pv, he0, hkl, hvl⟩ := hall e0 (List.mem_cons_self e0 rest)
      subst he0
      obtain ⟨hOut, caches, hreq, hrlen, hrall⟩ :=
        run_layers_lens cfg w.layers L s (buildMask L pk.len true)
          (fun p c => w.embedding_proj (toks p) c)
          (some ((some pk, some pv) :: rest)) h0 h2 hm hok
          (Or.inr ⟨_, rfl, by simp at hlen ⊢; omega, hall⟩)
      unfold pico_forward
      rw [if_pos htoks]
      simp only [Option.isSome]
      rw [hreq]
      dsimp only
      refine ⟨_, caches, rfl, by rw [hrlen, hlayn], ?_⟩
      intro e he
      obtain ⟨kt, vt, h1, h2', h3⟩ := hrall e he
      exact ⟨kt, vt, h1, h2', h3⟩

/-- C8 witness: the spec's decode scenario shape — a one-layer model, a
supplied cache of accumulated length 4, one new token; the returned cache has
one entry per layer with accumulated length 5. -/
theorem claim_C8_witness :
    (0 : ℕ) < 1 ∧ (4 : ℕ) + 1 ≤ cfgA.max_seq_len ∧
    (∃ logits caches,
      pico_forward cfgA zeroPW 1 tok0 (some (zeroCache 4)) true =
        some (logits, some caches) ∧
      caches.length = cfgA.n_layers ∧
      ∀ e ∈ caches, ∃ kt vt, e = (some kt, some vt) ∧
        kt.len = 4 + 1 ∧ vt.len = 4 + 1) :=
  ⟨by decide, by decide,
   claim_C8_cache_layers cfgA zeroPW 1 4 tok0 (some (zeroCache 4))
     (by decide) (by decide) (by decide) (by decide) (by decide) (by decide)
     (by decide) rfl
     (Or.inr ⟨zeroCache 4, rfl, rfl, by simp [zeroCache],
       fun e he => ⟨⟨4, zero3⟩, ⟨4, zero3⟩, by simpa [zeroCache] using he, rfl, rfl⟩⟩)⟩

/-- C1 witness: the cache-equivalence theorem at the tiny configuration,
`L = 2`, `k = 1`. -/
theorem claim_C1_witness :
    (0 : ℕ) < 1 ∧ (1 : ℕ) < 2 ∧ (2 : ℕ) ≤ cfgA.max_seq_len ∧
    (∃ lf cf lp cs ls cs2,
      pico_forward cfgA zeroPW 2 tok0 none false = some (lf, cf) ∧
      pico_forward cfgA zeroPW 1 tok0 none true = some (lp, some cs) ∧
      pico_forward cfgA zeroPW (2 - 1) (fun p => tok0 (1 + p)) (some cs) false =
        some (ls, cs2) ∧
      ∀ p, p < 2 - 1 → ls p = lf (1 + p)) :=
  ⟨by decide, by decide, by decide,
   claim_C1_cache_equivalence cfgA zeroPW 2 1 tok0 (by decide) (by decide)
     (by decide) (by decide) (by decide) (by decide) (by decide)
     (by simp [zeroPW]) (by decide)⟩

/-- C2 witness: noninterference at `L = 2`, `t = 0` for two sequences that
agree at position 0. -/
theorem claim_C2_witness :
    (0 : ℕ) < 2 ∧ (2 : ℕ) ≤ cfgA.max_seq_len ∧
    (∃ l1 l2,
      pico_forward cfgA zeroPW 2 tok0 none false = some (l1, none) ∧
      pico_forward cfgA zeroPW 2 (fun p => if p = 0 then 0 else 1) none false =
        some (l2, none) ∧
      l1 0 = l2 0) :=
  ⟨by decide, by decide,
   claim_C2_causal_noninterference cfgA zeroPW 2 0 tok0
     (fun p => if p = 0 then 0 else 1) (by decide) (by decide) (by decide)
     (by decide) (by decide) (by decide) (by decide) (by decide)
     (fun p hp => by interval_cases p; rfl)⟩

end PicoModel
